import Mathlib

/-!
# Task tracker (`script.js`): shallow embedding and verified properties

The development embeds the two data managers of `script.js` (`AuthManager`,
`TaskManager`) together with the entity classes `User` and `Task`.

Modelling conventions

* A JS `Map` with string keys is an association list kept in insertion order
  (`JSMap`); `Map.prototype.set` overwrites in place or appends.
* `localStorage` is a record of the three keys the program uses plus a counter
  of the `setItem` / `removeItem` calls performed so far.  A stored value is kept
  as the array of serialised records that is handed to `JSON.stringify`.
* A `Date` is the number of milliseconds since the epoch; the string produced
  by `toISOString` is represented by the instant it denotes (ECMA-262 makes
  `new Date(d.toISOString())` denote the same instant as a valid `d`).
* `generateId()` and `new Date()` read the clock and the random generator, so
  the generated id and the current time are explicit arguments.
* A thrown `Error` is the `Except.error` carrying the message.
-/

namespace Mod5

/-! ## JS values -/

/-- The JS values that the fields of a task may hold. Numbers are restricted to
integers and a `Date` is always a valid one. -/
inductive Val where
  | undefined
  | null
  | bool (b : Bool)
  | num (n : Int)
  | str (s : String)
  | date (ms : Int)
  deriving DecidableEq

/-- JS `ToBoolean`. -/
def Val.truthy : Val → Bool
  | .undefined => false
  | .null => false
  | .bool b => b
  | .num n => n != 0
  | .str s => s != ""
  | .date _ => true

/-- A parameter declared with the default `= null`: an argument that is missing
or `undefined` reads as `null`. -/
def Val.defaultNull : Val → Val
  | .undefined => .null
  | v => v

/-! ## JS `Map` -/

/-- A JS `Map` keyed by strings: its entries in insertion order. -/
structure JSMap (α : Type) where
  entries : List (String × α)
  deriving DecidableEq

namespace JSMap

variable {α : Type}

/-- `new Map()`. -/
def empty : JSMap α := ⟨[]⟩

/-- `Map.prototype.get`; `none` is `undefined`. -/
def get (m : JSMap α) (k : String) : Option α :=
  (m.entries.find? (fun e => e.1 == k)).map (fun e => e.2)

/-- `Map.prototype.has`. -/
def has (m : JSMap α) (k : String) : Bool :=
  m.entries.any (fun e => e.1 == k)

/-- Insertion into the entry list: overwrite the entry of `k` where it stands,
or append a new entry. -/
def setEntries (k : String) (v : α) : List (String × α) → List (String × α)
  | [] => [(k, v)]
  | e :: rest => if e.1 = k then (k, v) :: rest else e :: setEntries k v rest

/-- `Map.prototype.set`. -/
def set (m : JSMap α) (k : String) (v : α) : JSMap α :=
  ⟨setEntries k v m.entries⟩

/-- `Map.prototype.delete`: the flag tells whether an entry was removed. -/
def delete (m : JSMap α) (k : String) : Bool × JSMap α :=
  (m.has k, ⟨m.entries.filter (fun e => e.1 != k)⟩)

/-- `Array.from(map.values())`. -/
def values (m : JSMap α) : List α :=
  m.entries.map (fun e => e.2)

/-- Apply `f` to the value of the entry that `get k` finds. -/
def mutateEntries (k : String) (f : α → α) : List (String × α) → List (String × α)
  | [] => []
  | e :: rest => if e.1 = k then (e.1, f e.2) :: rest else e :: mutateEntries k f rest

/-- In-place mutation of the object stored under `k`: the map holds a reference
to the object, so mutating the object that `get k` returned changes what the
map yields afterwards. -/
def mutate (m : JSMap α) (k : String) (f : α → α) : JSMap α :=
  ⟨mutateEntries k f m.entries⟩

end JSMap

/-! ## `class User` -/

/-- An instance of `class User`. -/
structure User where
  id : String
  name : String
  email : String
  password : String
  createdAt : Int
  deriving DecidableEq

/-- The plain record returned by `User.toJSON` (`createdAt` is an ISO string). -/
structure UserData where
  id : String
  name : String
  email : String
  password : String
  createdAt : Int
  deriving DecidableEq

namespace User

/-- The constructor `new User(id, name, email, password)` run at time `now`. -/
def new (now : Int) (id name email password : String) : User :=
  { id := id, name := name, email := email, password := password, createdAt := now }

/-- Method `verifyPassword`. -/
def verifyPassword (u : User) (password : String) : Bool :=
  u.password == password

/-- Method `toJSON`. -/
def toJSON (u : User) : UserData :=
  { id := u.id, name := u.name, email := u.email, password := u.password,
    createdAt := u.createdAt }

/-- Static method `User.fromJSON`, run at time `now`. -/
def fromJSON (now : Int) (data : UserData) : User :=
  let user := User.new now data.id data.name data.email data.password
  { user with createdAt := data.createdAt }

end User

/-! ## Errors and `localStorage` -/

/-- What a `throw` carries: `new Error(message)`, or the `TypeError` raised by the
engine when a value that is not a function is called. -/
inductive JSError where
  | error (message : String)
  | typeError
  deriving DecidableEq

/-! ## `class Task` -/

/-- The object an instance of `Task` inherits from: `Task.prototype` unless an
assignment to `__proto__` replaced it by `null` or by a `Date` object. -/
inductive Proto where
  | taskPrototype
  | nullProto
  | dateObject (ms : Int)
  deriving DecidableEq

/-- An instance of `class Task`. `id` is only ever a string and `createdAt` only
ever a `Date`; the other seven data fields can be assigned any value by
`updateTask`. `shadow` lists the own properties that assignments to inherited
property names have created, most recent value first. -/
structure Task where
  id : String
  title : Val
  description : Val
  createdBy : Val
  assignedTo : Val
  deadline : Val
  createdAt : Int
  completed : Val
  completedAt : Val
  proto : Proto
  shadow : List (String × Val)
  deriving DecidableEq

/-- The plain record returned by `Task.toJSON` and read by `Task.fromJSON`:
`deadline` and `completedAt` are an ISO string (`some`) or `null` / missing
(`none`), `createdAt` is an ISO string. -/
structure TaskData where
  id : String
  title : Val
  description : Val
  createdBy : Val
  assignedTo : Val
  deadline : Option Int
  createdAt : Int
  completed : Val
  completedAt : Option Int
  deriving DecidableEq

/-- The nine own data properties that the constructor of `Task` creates. -/
def taskDataFields : List String :=
  ["id", "title", "description", "createdBy", "assignedTo", "deadline", "createdAt",
   "completed", "completedAt"]

/-- Property names of `Task.prototype`. -/
def taskPrototypeKeys : List String :=
  ["constructor", "complete", "uncomplete", "toJSON"]

/-- Property names of `Object.prototype` (ECMA-262 with Annex B). -/
def objectPrototypeKeys : List String :=
  ["constructor", "__defineGetter__", "__defineSetter__", "hasOwnProperty",
   "__lookupGetter__", "__lookupSetter__", "isPrototypeOf", "propertyIsEnumerable",
   "toString", "valueOf", "__proto__", "toLocaleString"]

/-- String-keyed property names of `Date.prototype` (ECMA-262 with Annex B). -/
def datePrototypeKeys : List String :=
  ["constructor", "getDate", "getDay", "getFullYear", "getHours", "getMilliseconds",
   "getMinutes", "getMonth", "getSeconds", "getTime", "getTimezoneOffset", "getUTCDate",
   "getUTCDay", "getUTCFullYear", "getUTCHours", "getUTCMilliseconds", "getUTCMinutes",
   "getUTCMonth", "getUTCSeconds", "getYear", "setDate", "setFullYear", "setHours",
   "setMilliseconds", "setMinutes", "setMonth", "setSeconds", "setTime", "setUTCDate",
   "setUTCFullYear", "setUTCHours", "setUTCMilliseconds", "setUTCMinutes", "setUTCMonth",
   "setUTCSeconds", "setYear", "toDateString", "toGMTString", "toISOString", "toJSON",
   "toLocaleDateString", "toLocaleString", "toLocaleTimeString", "toString",
   "toTimeString", "toUTCString", "valueOf"]

/-- Property names reachable through the prototype chain of a task. -/
def Proto.keys : Proto → List String
  | .taskPrototype => taskPrototypeKeys ++ objectPrototypeKeys
  | .nullProto => []
  | .dateObject _ => datePrototypeKeys ++ objectPrototypeKeys

namespace Task

/-- The constructor `new Task(id, title, description, createdBy, assignedTo, deadline)`
run at time `now`; the parameter `deadline` has the default `null`. -/
def new (now : Int) (id : String) (title description createdBy assignedTo : Val)
    (deadline : Val := Val.null) : Task :=
  { id := id, title := title, description := description, createdBy := createdBy,
    assignedTo := assignedTo, deadline := deadline.defaultNull, createdAt := now,
    completed := Val.bool false, completedAt := Val.null,
    proto := Proto.taskPrototype, shadow := [] }

/-- Body of method `complete`, run at time `now`. -/
def complete (now : Int) (t : Task) : Task :=
  { t with completed := Val.bool true, completedAt := Val.date now }

/-- Body of method `uncomplete`. -/
def uncomplete (t : Task) : Task :=
  { t with completed := Val.bool false, completedAt := Val.null }

/-- The expression `v ? v.toISOString() : null` of `toJSON`: a truthy value that
is not a `Date` has no method `toISOString`, so calling it throws. -/
def isoOrNull : Val → Except JSError (Option Int)
  | .date ms => .ok (some ms)
  | v => if v.truthy then .error JSError.typeError else .ok none

/-- Body of method `toJSON`. -/
def toJSON (t : Task) : Except JSError TaskData := do
  let deadline ← isoOrNull t.deadline
  let completedAt ← isoOrNull t.completedAt
  pure { id := t.id, title := t.title, description := t.description,
         createdBy := t.createdBy, assignedTo := t.assignedTo, deadline := deadline,
         createdAt := t.createdAt, completed := t.completed, completedAt := completedAt }

/-- The call `task.toJSON()`: the method of `Task.prototype` runs unless an own
property of that name hides it or the prototype was replaced; the values of the
model are not functions, so every other case is a `TypeError`. -/
def callToJSON (t : Task) : Except JSError TaskData :=
  if t.proto = Proto.taskPrototype ∧ (t.shadow.lookup "toJSON").isNone then t.toJSON
  else .error JSError.typeError

/-- The expression `data.x ? new Date(data.x) : null` of `fromJSON`. -/
def dateOrNull : Option Int → Val
  | some ms => Val.date ms
  | none => Val.null

/-- Static method `Task.fromJSON`, run at time `now`. -/
def fromJSON (now : Int) (data : TaskData) : Task :=
  let task := Task.new now data.id data.title data.description data.createdBy
    data.assignedTo (dateOrNull data.deadline)
  { task with createdAt := data.createdAt, completed := data.completed,
              completedAt := dateOrNull data.completedAt }

/-- The operator `key in task`: own properties, then the prototype chain. -/
def hasProperty (t : Task) (key : String) : Bool :=
  taskDataFields.contains key || (t.shadow.lookup key).isSome || t.proto.keys.contains key

/-- The assignment `task[key] = v` for a `key` other than `id` and `createdAt`
(the only place that assigns by name, `updateTask`, excludes these two). A data
field is overwritten; `__proto__` reaches the accessor of `Object.prototype`,
which replaces the prototype by `null` or an object and ignores every other
value; any other name becomes an own property. -/
def assign (t : Task) (key : String) (v : Val) : Task :=
  if key = "title" then { t with title := v }
  else if key = "description" then { t with description := v }
  else if key = "createdBy" then { t with createdBy := v }
  else if key = "assignedTo" then { t with assignedTo := v }
  else if key = "deadline" then { t with deadline := v }
  else if key = "completed" then { t with completed := v }
  else if key = "completedAt" then { t with completedAt := v }
  else if key = "id" ∨ key = "createdAt" then t
  else if key = "__proto__" then
    match v with
    | .null => { t with proto := Proto.nullProto }
    | .date ms => { t with proto := Proto.dateObject ms }
    | _ => t
  else { t with shadow := (key, v) :: t.shadow }

end Task

/-- The three keys of `localStorage` that the program uses (`none`: the key is
not set) and the number of `setItem` / `removeItem` calls made so far. -/
structure LocalStorage where
  users : Option (List UserData)
  currentUser : Option UserData
  tasks : Option (List TaskData)
  writes : Nat
  deriving DecidableEq

/-- A storage in which nothing was ever written. -/
def LocalStorage.empty : LocalStorage :=
  { users := none, currentUser := none, tasks := none, writes := 0 }

namespace LocalStorage

/-- The call `localStorage.setItem('users', JSON.stringify(usersData))`. -/
def setUsers (ls : LocalStorage) (usersData : List UserData) : LocalStorage :=
  { ls with users := some usersData, writes := ls.writes + 1 }

/-- The call `localStorage.setItem('currentUser', JSON.stringify(currentUser))`. -/
def setCurrentUser (ls : LocalStorage) (u : UserData) : LocalStorage :=
  { ls with currentUser := some u, writes := ls.writes + 1 }

/-- The call `localStorage.removeItem('currentUser')`. -/
def removeCurrentUser (ls : LocalStorage) : LocalStorage :=
  { ls with currentUser := none, writes := ls.writes + 1 }

/-- The call `localStorage.setItem('tasks', JSON.stringify(tasksData))`. -/
def setTasks (ls : LocalStorage) (tasksData : List TaskData) : LocalStorage :=
  { ls with tasks := some tasksData, writes := ls.writes + 1 }

end LocalStorage

/-! ## `class AuthManager` -/

/-- The fields of an `AuthManager` together with the `localStorage` it writes to.
`currentUser` is the session snapshot, `none` when it is `null`. -/
structure AuthManager where
  users : JSMap User
  currentUser : Option UserData
  storage : LocalStorage
  deriving DecidableEq

namespace AuthManager

/-- Method `getAllUsers`. -/
def getAllUsers (am : AuthManager) : List User :=
  am.users.values

/-- Method `getCurrentUser`. -/
def getCurrentUser (am : AuthManager) : Option UserData :=
  am.currentUser

/-- Method `saveToStorage`. -/
def saveToStorage (am : AuthManager) : AuthManager :=
  let usersData := am.users.values.map User.toJSON
  let ls := am.storage.setUsers usersData
  match am.currentUser with
  | some snapshot => { am with storage := ls.setCurrentUser snapshot }
  | none => { am with storage := ls.removeCurrentUser }

/-- Method `register`; `id` is what `generateId()` returns and `now` the time of
the call. The first component is the state after the call, also when it throws. -/
def register (am : AuthManager) (id : String) (now : Int) (name email password : String) :
    AuthManager × Except JSError User :=
  if (am.users.values.find? (fun user => user.email == email)).isSome then
    (am, .error (JSError.error "El email ya está registrado"))
  else
    let user := User.new now id name email password
    let am1 := { am with users := am.users.set id user }
    (am1.saveToStorage, .ok user)

/-- Method `login`. -/
def login (am : AuthManager) (email password : String) : AuthManager × Except JSError User :=
  match am.users.values.find? (fun u => u.email == email) with
  | none => (am, .error (JSError.error "Credenciales incorrectas"))
  | some user =>
    if !user.verifyPassword password then
      (am, .error (JSError.error "Credenciales incorrectas"))
    else
      let am1 := { am with currentUser := some user.toJSON }
      (am1.saveToStorage, .ok user)

/-- Method `logout`. -/
def logout (am : AuthManager) : AuthManager :=
  let am1 := { am with currentUser := none }
  am1.saveToStorage

end AuthManager

/-- States of an `AuthManager` reachable from an empty user collection by calls
of `register`, `login` and `logout`, whatever ids `generateId()` returns and
whether or not a call throws. -/
inductive AuthReachable : AuthManager → Prop where
  | init (currentUser : Option UserData) (ls : LocalStorage) :
      AuthReachable { users := JSMap.empty, currentUser := currentUser, storage := ls }
  | register {am : AuthManager} (id : String) (now : Int) (name email password : String) :
      AuthReachable am → AuthReachable (am.register id now name email password).1
  | login {am : AuthManager} (email password : String) :
      AuthReachable am → AuthReachable (am.login email password).1
  | logout {am : AuthManager} :
      AuthReachable am → AuthReachable am.logout

/-! ## IEEE-754 binary64 arithmetic

JS numbers are binary64 values and `/`, `*` round the exact result to the nearest
representable value, ties to even. Only non-negative finite values in the normal
range occur in `getStatistics`; such a value is kept as an exact fraction. -/

/-- Floor of the binary logarithm (`0` at `0`); `fuel` bounds the recursion. -/
def log2Fuel : Nat → Nat → Nat
  | 0, _ => 0
  | fuel + 1, n => if n < 2 then 0 else log2Fuel fuel (n / 2) + 1

/-- Floor of the binary logarithm of `n`. -/
def log2Floor (n : Nat) : Nat :=
  log2Fuel n n

/-- The integer nearest to `n / d`, ties to the even one. -/
def roundHalfEven (n d : Nat) : Nat :=
  let q := n / d
  let r := n % d
  if 2 * r < d then q
  else if d < 2 * r then q + 1
  else if q % 2 = 0 then q else q + 1

/-- A non-negative finite binary64 value, as the fraction `num / den`. -/
structure F64 where
  num : Nat
  den : Nat
  deriving DecidableEq

namespace F64

/-- The binary64 value nearest to the positive fraction `n / d` (ties to even),
for results in the normal range: the fraction is scaled by the power of two that
brings it into `[2^52, 2^53)`, rounded to an integer and scaled back. -/
def round (n d : Nat) : F64 :=
  if n = 0 ∨ d = 0 then ⟨0, 1⟩
  else
    let ln := log2Floor n
    let ld := log2Floor d
    -- `p` is the floor of the binary logarithm of `n / d`
    let p : Int := if d * 2 ^ ln ≤ n * 2 ^ ld then (ln : Int) - ld else (ln : Int) - ld - 1
    let s : Int := 52 - p
    if 0 ≤ s then
      ⟨roundHalfEven (n * 2 ^ s.toNat) d, 2 ^ s.toNat⟩
    else
      ⟨roundHalfEven n (d * 2 ^ (-s).toNat) * 2 ^ (-s).toNat, 1⟩

/-- The Number of a non-negative integer (exact below `2^53`). -/
def ofNat (n : Nat) : F64 :=
  round n 1

/-- The operator `/` on Numbers. -/
def div (a b : F64) : F64 :=
  round (a.num * b.den) (a.den * b.num)

/-- The operator `*` on Numbers. -/
def mul (a b : F64) : F64 :=
  round (a.num * b.num) (a.den * b.den)

/-- `Math.round`: the integer nearest to the value, ties towards `+∞`; that is
the floor of the exact sum `x + 1/2`. -/
def mathRound (x : F64) : Nat :=
  (2 * x.num + x.den) / (2 * x.den)

end F64

/-! ## `class TaskManager` -/

/-- The field of a `TaskManager` together with the `localStorage` it writes to. -/
structure TaskManager where
  tasks : JSMap Task
  storage : LocalStorage
  deriving DecidableEq

/-- The object returned by `getStatistics`. -/
structure Statistics where
  totalTasks : Nat
  completedTasks : Nat
  completionPercentage : Nat
  deriving DecidableEq

/-- The expression `updates[key]` on an object given by its own enumerable
properties; a missing key reads as `undefined`. -/
def readKey (updates : List (String × Val)) (key : String) : Val :=
  (updates.lookup key).getD Val.undefined

/-- The body of the `forEach` callback of `updateTask` for one key. -/
def applyKey (updates : List (String × Val)) (task : Task) (key : String) : Task :=
  if task.hasProperty key && key != "id" && key != "createdAt" then
    task.assign key (readKey updates key)
  else task

/-- The loop `Object.keys(updates).forEach(...)` of `updateTask`; `updates` lists
the own enumerable properties of the object in the order of `Object.keys`. -/
def applyUpdates (updates : List (String × Val)) (task : Task) : Task :=
  (updates.map (fun e => e.1)).foldl (applyKey updates) task

namespace TaskManager

/-- Method `getTask`; `none` is `undefined`. -/
def getTask (tm : TaskManager) (id : String) : Option Task :=
  tm.tasks.get id

/-- Method `getAllTasks`. -/
def getAllTasks (tm : TaskManager) : List Task :=
  tm.tasks.values

/-- Method `saveToStorage`: `task.toJSON()` is called on every task before
anything is written, so a throw leaves `localStorage` as it was. -/
def saveToStorage (tm : TaskManager) : Except JSError TaskManager :=
  match tm.tasks.values.mapM Task.callToJSON with
  | .ok tasksData => .ok { tm with storage := tm.storage.setTasks tasksData }
  | .error e => .error e

/-- A call of `saveToStorage` that ends a method returning `result`: the state
after the method and what it returns or throws. -/
def saveThen {ρ : Type} (tm : TaskManager) (result : ρ) : TaskManager × Except JSError ρ :=
  match tm.saveToStorage with
  | .ok tm1 => (tm1, .ok result)
  | .error e => (tm, .error e)

/-- Method `createTask`; `id` is what `generateId()` returns and `now` the time
of the call. The first component is the state after the call, also when it
throws. -/
def createTask (tm : TaskManager) (id : String) (now : Int)
    (title description createdBy assignedTo : Val) (deadline : Val := Val.null) :
    TaskManager × Except JSError Task :=
  let task := Task.new now id title description createdBy assignedTo deadline
  let tm1 := { tm with tasks := tm.tasks.set id task }
  saveThen tm1 task

/-- Method `getFilteredTasks`. -/
def getFilteredTasks (tm : TaskManager) (status : String := "all") (userId : String := "all") :
    List Task :=
  tm.getAllTasks.filter (fun task =>
    let statusMatch := status == "all" ||
      (status == "completed" && task.completed.truthy) ||
      (status == "pending" && !task.completed.truthy)
    let userMatch := userId == "all" || task.assignedTo == Val.str userId
    statusMatch && userMatch)

/-- Method `updateTask`; the result `none` is `undefined`. -/
def updateTask (tm : TaskManager) (id : String) (updates : List (String × Val)) :
    TaskManager × Except JSError (Option Task) :=
  match tm.getTask id with
  | none => (tm, .ok none)
  | some task =>
    let tm1 := { tm with tasks := tm.tasks.mutate id (applyUpdates updates) }
    saveThen tm1 (some (applyUpdates updates task))

/-- Method `deleteTask`. -/
def deleteTask (tm : TaskManager) (id : String) : TaskManager × Except JSError Bool :=
  let (result, tasks) := tm.tasks.delete id
  if result then saveThen { tm with tasks := tasks } result
  else (tm, .ok result)

/-- Method `getStatistics`. -/
def getStatistics (tm : TaskManager) : Statistics :=
  let allTasks := tm.getAllTasks
  let totalTasks := allTasks.length
  let completedTasks := (allTasks.filter (fun task => task.completed.truthy)).length
  let completionPercentage :=
    if totalTasks > 0 then
      F64.mathRound (F64.mul (F64.div (F64.ofNat completedTasks) (F64.ofNat totalTasks))
        (F64.ofNat 100))
    else 0
  { totalTasks := totalTasks, completedTasks := completedTasks,
    completionPercentage := completionPercentage }

/-- The array `mockTasks` of `loadInitialTasksFromAPI`; `clock i` is the value of
the `i`-th reading of the clock (`Date.now()`, `new Date()`) in the callback. -/
def mockTasks (clock : Nat → Int) : List TaskData :=
  [ { id := "api-1", title := Val.str "Revisar documentación",
      description := Val.str "Revisar y actualizar la documentación del proyecto",
      createdBy := Val.str "system", assignedTo := Val.str "all",
      deadline := some (clock 0 + 7 * 24 * 60 * 60 * 1000), createdAt := clock 1,
      completed := Val.bool false, completedAt := none },
    { id := "api-2", title := Val.str "Preparar reunión de equipo",
      description := Val.str "Preparar agenda y materiales para la reunión",
      createdBy := Val.str "system", assignedTo := Val.str "all",
      deadline := some (clock 2 + 2 * 24 * 60 * 60 * 1000), createdAt := clock 3,
      completed := Val.bool false, completedAt := none } ]

/-- The loop `mockTasks.forEach(...)`: a record is inserted unless its id is
already a key; the constructor run for the `i`-th record reads the clock. -/
def insertMissing (clock : Nat → Int) :
    Nat → List TaskData → JSMap Task → JSMap Task
  | _, [], tasks => tasks
  | i, taskData :: rest, tasks =>
    let task := Task.fromJSON (clock i) taskData
    insertMissing clock (i + 1) rest (if !tasks.has task.id then tasks.set task.id task else tasks)

/-- The callback of `loadInitialTasksFromAPI` (run once the timer fires); the
promise resolves with the array of all tasks. -/
def loadInitialTasksFromAPI (tm : TaskManager) (clock : Nat → Int) :
    TaskManager × Except JSError (List Task) :=
  let tm1 := { tm with tasks := insertMissing clock 4 (mockTasks clock) tm.tasks }
  saveThen tm1 tm1.tasks.values

end TaskManager

/-! ## Sample states -/

/-- An `AuthManager` as the constructor leaves it on a first run. -/
def freshAuth : AuthManager :=
  { users := JSMap.empty, currentUser := none, storage := LocalStorage.empty }

/-- Two users registered, the first one logged in. -/
def sampleAuth : AuthManager :=
  (((freshAuth.register "u1" 1000 "Ana" "ana@example.com" "secret").1.register
    "u2" 2000 "Luis" "luis@example.com" "clave").1.login "ana@example.com" "secret").1

/-- A task as `createTask` builds it from the form: title, description and the
ids of two users, no deadline. -/
def sampleTask : Task :=
  Task.new 5000 "t1" (Val.str "Comprar pan") (Val.str "") (Val.str "u1") (Val.str "u2")

/-- A `TaskManager` on a first run after one `createTask`. -/
def sampleTasks : TaskManager :=
  (TaskManager.createTask { tasks := JSMap.empty, storage := LocalStorage.empty } "t1" 5000
    (Val.str "Comprar pan") (Val.str "") (Val.str "u1") (Val.str "u2")).1

/-- An update record keeps `completed` and `completedAt` paired: it names neither
of them, or it is `{completed: true, completedAt: <a Date>}` or
`{completed: false, completedAt: null}` on these two keys. -/
def pairedUpdate (updates : List (String × Val)) : Prop :=
  (updates.lookup "completed" = none ∧ updates.lookup "completedAt" = none) ∨
  (updates.lookup "completed" = some (Val.bool true) ∧
    ∃ ms, updates.lookup "completedAt" = some (Val.date ms)) ∨
  (updates.lookup "completed" = some (Val.bool false) ∧
    updates.lookup "completedAt" = some Val.null)

/-- States of a `TaskManager` reachable from the empty collection by
`createTask`, `updateTask` with a record that satisfies `allowed`, `deleteTask`,
the methods `complete` and `uncomplete` called on a task of the collection, and
the bootstrap insertion; a state left behind by a call that throws counts. -/
inductive TaskReachable (allowed : List (String × Val) → Prop) : TaskManager → Prop where
  | init (ls : LocalStorage) : TaskReachable allowed { tasks := JSMap.empty, storage := ls }
  | createTask {tm : TaskManager} (id : String) (now : Int)
      (title description createdBy assignedTo deadline : Val) :
      TaskReachable allowed tm →
      TaskReachable allowed
        (tm.createTask id now title description createdBy assignedTo deadline).1
  | updateTask {tm : TaskManager} (id : String) (updates : List (String × Val)) :
      allowed updates → TaskReachable allowed tm →
      TaskReachable allowed (tm.updateTask id updates).1
  | deleteTask {tm : TaskManager} (id : String) :
      TaskReachable allowed tm → TaskReachable allowed (tm.deleteTask id).1
  | complete {tm : TaskManager} (id : String) (now : Int) :
      TaskReachable allowed tm →
      TaskReachable allowed { tm with tasks := tm.tasks.mutate id (Task.complete now) }
  | uncomplete {tm : TaskManager} (id : String) :
      TaskReachable allowed tm →
      TaskReachable allowed { tm with tasks := tm.tasks.mutate id Task.uncomplete }
  | bootstrap {tm : TaskManager} (clock : Nat → Int) :
      TaskReachable allowed tm → TaskReachable allowed (tm.loadInitialTasksFromAPI clock).1

/-- The sample collection after `updateTask("t1", {completed: true})`. -/
def halfCompleted : TaskManager :=
  (sampleTasks.updateTask "t1" [("completed", Val.bool true)]).1

/-- The sample collection after the task was completed through `updateTask` with
both fields, as `TaskApp.completeTask` does, and the bootstrap ran. -/
def sampleCompleted : TaskManager :=
  (TaskManager.loadInitialTasksFromAPI
    (sampleTasks.updateTask "t1" [("completed", Val.bool true), ("completedAt", Val.date 6000)]).1
    (fun _ => 7000)).1

/-- The value of a binary64 number as a rational. -/
def F64.toRat (x : F64) : ℚ :=
  (x.num : ℚ) / x.den

/-- The completion percentage as the specification words it:
round(completed / total × 100), the nearest integer with halves rounded up, in
exact arithmetic; `0` when `total` is `0`. -/
def exactPercentage (completed total : Nat) : Nat :=
  if total = 0 then 0 else (200 * completed + total) / (2 * total)

/-- A collection of `total` tasks of which the first `completed` are completed. -/
def tasksWith (total completed : Nat) : TaskManager :=
  { tasks := ⟨(List.range total).map (fun i =>
      ("t" ++ toString i,
        let task := Task.new 5000 ("t" ++ toString i) (Val.str "tarea") (Val.str "")
          (Val.str "u1") (Val.str "u2")
        if i < completed then task.complete 6000 else task))⟩,
    storage := LocalStorage.empty }

/-! ## Calls made by `TaskApp` and conditions on tasks -/

namespace Task

/-- The call `task.complete()` at time `now`: the method of `Task.prototype`
runs unless an own property of that name hides it or the prototype was
replaced (`Date.prototype` has no such member). -/
def callComplete (now : Int) (t : Task) : Except JSError Task :=
  if t.proto = Proto.taskPrototype ∧ (t.shadow.lookup "complete").isNone then .ok (t.complete now)
  else .error JSError.typeError

/-- The call `task.uncomplete()`. -/
def callUncomplete (t : Task) : Except JSError Task :=
  if t.proto = Proto.taskPrototype ∧ (t.shadow.lookup "uncomplete").isNone then .ok t.uncomplete
  else .error JSError.typeError

/-- The tasks on which `task.toJSON()` returns: the method is the one of the
class, and `deadline` and `completedAt` are each a `Date` or falsy (`null` as the
constructor leaves them). -/
def serialisable (t : Task) : Prop :=
  t.proto = Proto.taskPrototype ∧ t.shadow.lookup "toJSON" = none ∧
  ((∃ ms, t.deadline = Val.date ms) ∨ t.deadline.truthy = false) ∧
  ((∃ ms, t.completedAt = Val.date ms) ∨ t.completedAt.truthy = false)

end Task

/-- The keys of a `Map` are pairwise different. -/
def JSMap.distinctKeys {α : Type} (m : JSMap α) : Prop :=
  (m.entries.map (fun e => e.1)).Nodup

namespace TaskApp

/-- Method `TaskApp.completeTask` at time `now`, without the rendering. -/
def completeTask (tm : TaskManager) (id : String) (now : Int) :
    TaskManager × Except JSError (Option Task) :=
  tm.updateTask id [("completed", Val.bool true), ("completedAt", Val.date now)]

/-- Method `TaskApp.uncompleteTask`, without the rendering. -/
def uncompleteTask (tm : TaskManager) (id : String) :
    TaskManager × Except JSError (Option Task) :=
  tm.updateTask id [("completed", Val.bool false), ("completedAt", Val.null)]

end TaskApp

/-- The sample collection after a second `createTask`. -/
def twoTasks : TaskManager :=
  (sampleTasks.createTask "t2" 5500 (Val.str "Regar") (Val.str "plantas") (Val.str "u2")
    (Val.str "u1") (Val.date 9000)).1

/-! ## JSON text and `loadFromStorage` -/

/-- Decimal digits of `n`, padded with zeros on the left to at least `width`. -/
def padZero (width n : Nat) : String :=
  String.mk (List.replicate (width - (toString n).length) '0') ++ toString n

/-- Year, month and day of the proleptic Gregorian calendar for a number of days
since 1970-01-01. -/
def civilFromDays (days : Int) : Int × Int × Int :=
  let z := days + 719468
  let era := z / 146097
  let doe := z - era * 146097
  let yoe := (doe - doe / 1460 + doe / 36524 - doe / 146096) / 365
  let doy := doe - (365 * yoe + yoe / 4 - yoe / 100)
  let mp := (5 * doy + 2) / 153
  let d := doy - (153 * mp + 2) / 5 + 1
  let m := if mp < 10 then mp + 3 else mp - 9
  let y := yoe + era * 400
  (if m ≤ 2 then y + 1 else y, m, d)

/-- `Date.prototype.toISOString` of a valid `Date`: `YYYY-MM-DDTHH:mm:ss.sssZ`,
with a sign and six digits for a year outside `0 .. 9999`. -/
def toISOString (ms : Int) : String :=
  let days := ms / 86400000
  let rest := (ms % 86400000).toNat
  let (y, m, d) := civilFromDays days
  let year :=
    if 0 ≤ y ∧ y ≤ 9999 then padZero 4 y.toNat
    else if y < 0 then "-" ++ padZero 6 (-y).toNat
    else "+" ++ padZero 6 y.toNat
  year ++ "-" ++ padZero 2 m.toNat ++ "-" ++ padZero 2 d.toNat ++ "T" ++
    padZero 2 (rest / 3600000) ++ ":" ++ padZero 2 (rest / 60000 % 60) ++ ":" ++
    padZero 2 (rest / 1000 % 60) ++ "." ++ padZero 3 (rest % 1000) ++ "Z"

/-- What `JSON.parse(JSON.stringify(·))` makes of the value of a property: a
`Date` comes back as its ISO string; a property that is `undefined` is left out
of the text and reads as `undefined` again; the other values come back as they
were. -/
def Val.viaJSON : Val → Val
  | .date ms => .str (toISOString ms)
  | v => v

/-- What `JSON.parse(JSON.stringify(·))` makes of a record of `Task.toJSON`. -/
def TaskData.viaJSON (data : TaskData) : TaskData :=
  { data with title := data.title.viaJSON, description := data.description.viaJSON,
              createdBy := data.createdBy.viaJSON, assignedTo := data.assignedTo.viaJSON,
              completed := data.completed.viaJSON }

namespace TaskManager

/-- The loop `JSON.parse(storedTasks).forEach(...)` of `loadFromStorage` over the
array that was handed to `JSON.stringify`; the constructor run for the `i`-th
record reads the clock. -/
def loadRecords (clock : Nat → Int) : Nat → List TaskData → JSMap Task → JSMap Task
  | _, [], tasks => tasks
  | i, taskData :: rest, tasks =>
    let task := Task.fromJSON (clock i) taskData.viaJSON
    loadRecords clock (i + 1) rest (tasks.set task.id task)

/-- Method `loadFromStorage`: nothing happens when the key `tasks` is not set. -/
def loadFromStorage (tm : TaskManager) (clock : Nat → Int) : TaskManager :=
  match tm.storage.tasks with
  | some records => { tm with tasks := loadRecords clock 0 records tm.tasks }
  | none => tm

/-- The constructor `new TaskManager()` over the `localStorage` `ls`. -/
def new (ls : LocalStorage) (clock : Nat → Int) : TaskManager :=
  loadFromStorage { tasks := JSMap.empty, storage := ls } clock

end TaskManager

/-! ## Tasks and arguments that survive the way through storage -/

/-- A task that `saveToStorage` followed by `loadFromStorage` gives back as it
is: its methods are those of the class, no own property was added, `deadline`
and `completedAt` are `null` or a `Date`, and the other values are unchanged by
JSON (any primitive; a `Date` would come back as a string). -/
def Task.storable (t : Task) : Prop :=
  t.proto = Proto.taskPrototype ∧ t.shadow = [] ∧
  t.title.viaJSON = t.title ∧ t.description.viaJSON = t.description ∧
  t.createdBy.viaJSON = t.createdBy ∧ t.assignedTo.viaJSON = t.assignedTo ∧
  t.completed.viaJSON = t.completed ∧
  (t.deadline = Val.null ∨ ∃ ms, t.deadline = Val.date ms) ∧
  (t.completedAt = Val.null ∨ ∃ ms, t.completedAt = Val.date ms)

/-- The condition on one property of an update record under which `updateTask`
maps storable tasks to storable tasks: a value unchanged by JSON for `title`,
`description`, `createdBy`, `assignedTo` and `completed`; `null` or a `Date` for
`deadline` and `completedAt`; anything for `id` and `createdAt`, which are
skipped; and any other key must not name an inherited member. -/
def storableField (key : String) (v : Val) : Prop :=
  if key = "title" ∨ key = "description" ∨ key = "createdBy" ∨ key = "assignedTo" ∨
      key = "completed" then v.viaJSON = v
  else if key = "deadline" ∨ key = "completedAt" then v = Val.null ∨ ∃ ms, v = Val.date ms
  else if key = "id" ∨ key = "createdAt" then True
  else (taskPrototypeKeys ++ objectPrototypeKeys).contains key = false

/-- Every property of the update record satisfies `storableField`. -/
def storableUpdate (updates : List (String × Val)) : Prop :=
  ∀ e ∈ updates, storableField e.1 e.2

/-- A part of the states of a `TaskManager` reachable from the empty collection
and an empty `localStorage` by `createTask`, `updateTask` and `deleteTask`:
those reached by calls with values as the data model types them (texts and flags
unchanged by JSON, deadlines `null`, left out or a `Date`) and with update
records that satisfy `storableUpdate`. The methods themselves take any
arguments; `staleSample` is a state they reach that is not of this part. -/
inductive PersistReachable : TaskManager → Prop where
  | init : PersistReachable { tasks := JSMap.empty, storage := LocalStorage.empty }
  | createTask {tm : TaskManager} (id : String) (now : Int)
      (title description createdBy assignedTo deadline : Val) :
      title.viaJSON = title → description.viaJSON = description →
      createdBy.viaJSON = createdBy → assignedTo.viaJSON = assignedTo →
      (deadline = Val.undefined ∨ deadline = Val.null ∨ ∃ ms, deadline = Val.date ms) →
      PersistReachable tm →
      PersistReachable (tm.createTask id now title description createdBy assignedTo deadline).1
  | updateTask {tm : TaskManager} (id : String) (updates : List (String × Val)) :
      storableUpdate updates → PersistReachable tm →
      PersistReachable (tm.updateTask id updates).1
  | deleteTask {tm : TaskManager} (id : String) :
      PersistReachable tm → PersistReachable (tm.deleteTask id).1

/-- Three tasks created, the first completed as `TaskApp.completeTask` does, the
second edited and the third deleted. -/
def persistedSample : TaskManager :=
  (TaskManager.deleteTask
    (TaskManager.updateTask
      (TaskApp.completeTask
        (TaskManager.createTask
          (TaskManager.createTask sampleTasks "t2" 5500 (Val.str "Regar") Val.undefined
            (Val.str "u2") (Val.str "u1") (Val.date 9000)).1
          "t3" 5600 (Val.str "Barrer") (Val.str "") (Val.str "u1") (Val.str "u1")).1
        "t1" 6000).1
      "t2" [("title", Val.str "Regar las plantas"), ("description", Val.str "todas")]).1
    "t3").1

/-- The sample collection after an update record that supplies another `id`,
followed by the bootstrap insertion. -/
def renamedSample : TaskManager :=
  (TaskManager.loadInitialTasksFromAPI
    (sampleTasks.updateTask "t1" [("id", Val.str "api-1"), ("title", Val.str "otro")]).1
    (fun _ => 7000)).1

/-- The collection with two tasks after `updateTask("t2", {toJSON: "x"})`. -/
def shadowedTwoTasks : TaskManager :=
  (twoTasks.updateTask "t2" [("toJSON", Val.str "x")]).1

/-- The state after `createTask` of the task `"t1"` on the empty collection over
an empty `localStorage`, followed by
`updateTask("t1", {title: "z", toJSON: "x"})`. -/
def staleSample : TaskManager :=
  (sampleTasks.updateTask "t1" [("title", Val.str "z"), ("toJSON", Val.str "x")]).1

/-! # Verified properties -/

/-! ## Lemmas on `JSMap` -/

namespace JSMap

variable {α : Type}

theorem mem_setEntries {k : String} {v : α} {l : List (String × α)} {e : String × α}
    (h : e ∈ setEntries k v l) : e = (k, v) ∨ e ∈ l := by
  induction l with
  | nil => simpa [setEntries] using h
  | cons a rest ih =>
    unfold setEntries at h
    split at h
    · rcases List.mem_cons.1 h with h | h
      · exact Or.inl h
      · exact Or.inr (List.mem_cons_of_mem _ h)
    · rcases List.mem_cons.1 h with h | h
      · exact Or.inr (h ▸ List.mem_cons_self _ _)
      · rcases ih h with h | h
        · exact Or.inl h
        · exact Or.inr (List.mem_cons_of_mem _ h)

theorem mem_values_set {m : JSMap α} {k : String} {v u : α} (h : u ∈ (m.set k v).values) :
    u = v ∨ u ∈ m.values := by
  simp only [values, set, List.mem_map] at h ⊢
  obtain ⟨e, he, rfl⟩ := h
  rcases mem_setEntries he with h | h
  · exact Or.inl (by rw [h])
  · exact Or.inr ⟨e, h, rfl⟩

theorem mem_values_delete {m : JSMap α} {k : String} {u : α} (h : u ∈ (m.delete k).2.values) :
    u ∈ m.values := by
  simp only [values, delete, List.mem_map, List.mem_filter] at h ⊢
  obtain ⟨e, ⟨he, _⟩, rfl⟩ := h
  exact ⟨e, he, rfl⟩

theorem mem_mutateEntries {k : String} {f : α → α} {l : List (String × α)} {e : String × α}
    (h : e ∈ mutateEntries k f l) : e ∈ l ∨ ∃ a ∈ l, e = (a.1, f a.2) := by
  induction l with
  | nil => simp [mutateEntries] at h
  | cons a rest ih =>
    unfold mutateEntries at h
    split at h
    · rcases List.mem_cons.1 h with h | h
      · exact Or.inr ⟨a, List.mem_cons_self _ _, h⟩
      · exact Or.inl (List.mem_cons_of_mem _ h)
    · rcases List.mem_cons.1 h with h | h
      · exact Or.inl (h ▸ List.mem_cons_self _ _)
      · rcases ih h with h | ⟨b, hb, h⟩
        · exact Or.inl (List.mem_cons_of_mem _ h)
        · exact Or.inr ⟨b, List.mem_cons_of_mem _ hb, h⟩

theorem mem_values_mutate {m : JSMap α} {k : String} {f : α → α} {u : α}
    (h : u ∈ (m.mutate k f).values) : u ∈ m.values ∨ ∃ t ∈ m.values, u = f t := by
  simp only [values, mutate, List.mem_map] at h ⊢
  obtain ⟨e, he, rfl⟩ := h
  rcases mem_mutateEntries he with h | ⟨a, ha, h⟩
  · exact Or.inl ⟨e, h, rfl⟩
  · exact Or.inr ⟨a.2, ⟨a, ha, rfl⟩, by rw [h]⟩

theorem pairwise_values_setEntries {R : α → α → Prop} {k : String} {v : α}
    {l : List (String × α)} (hl : (l.map (fun e => e.2)).Pairwise R)
    (hv : ∀ u ∈ l.map (fun e => e.2), R u v ∧ R v u) :
    ((setEntries k v l).map (fun e => e.2)).Pairwise R := by
  induction l with
  | nil => simp [setEntries]
  | cons a rest ih =>
    simp only [List.map_cons, List.pairwise_cons] at hl
    have hrest : ∀ u ∈ rest.map (fun e => e.2), R u v ∧ R v u :=
      fun u hu => hv u (by simp only [List.map_cons]; exact List.mem_cons_of_mem _ hu)
    unfold setEntries
    split
    · simp only [List.map_cons, List.pairwise_cons]
      exact ⟨fun u hu => (hrest u hu).2, hl.2⟩
    · simp only [List.map_cons, List.pairwise_cons]
      refine ⟨fun u hu => ?_, ih hl.2 hrest⟩
      obtain ⟨e, he, rfl⟩ := List.mem_map.1 hu
      rcases mem_setEntries he with h | h
      · rw [h]
        exact (hv a.2 (by simp)).1
      · exact hl.1 _ (List.mem_map.2 ⟨e, h, rfl⟩)

end JSMap

/-! ## `AuthManager` -/

theorem find_email_isSome_iff (users : List User) (email : String) :
    (users.find? (fun user => user.email == email)).isSome = true ↔
      ∃ u ∈ users, u.email = email := by
  simp [List.find?_isSome]

theorem saveToStorage_users (am : AuthManager) : am.saveToStorage.users = am.users := by
  unfold AuthManager.saveToStorage
  split <;> rfl

theorem saveToStorage_currentUser (am : AuthManager) :
    am.saveToStorage.currentUser = am.currentUser := by
  unfold AuthManager.saveToStorage
  split <;> rfl

/-- Every step of `register` keeps the emails of the collection pairwise distinct. -/
theorem register_keeps_distinct (am : AuthManager) (id : String) (now : Int)
    (name email password : String)
    (h : am.getAllUsers.Pairwise (fun u1 u2 => u1.email ≠ u2.email)) :
    (am.register id now name email password).1.getAllUsers.Pairwise
      (fun u1 u2 => u1.email ≠ u2.email) := by
  unfold AuthManager.register
  split
  · exact h
  · rename_i hfind
    have hnew : ∀ u ∈ am.users.values, u.email ≠ email := by
      intro u hu heq
      exact hfind ((find_email_isSome_iff _ _).2 ⟨u, hu, heq⟩)
    simp only [AuthManager.getAllUsers, saveToStorage_users]
    apply JSMap.pairwise_values_setEntries h
    intro u hu
    have := hnew u hu
    exact ⟨by simpa [User.new] using this, by simpa [User.new] using fun h => this h.symm⟩

theorem login_users (am : AuthManager) (email password : String) :
    (am.login email password).1.users = am.users := by
  unfold AuthManager.login
  split
  · rfl
  · split
    · rfl
    · simp only [saveToStorage_users]

theorem logout_users (am : AuthManager) : am.logout.users = am.users := by
  simp only [AuthManager.logout, saveToStorage_users]

/-- C1. In every state of the `AuthManager` that is reachable from an empty user
collection by calls of `register`, `login` and `logout` (with any generated
ids), two users at different places of the collection never have the same
email. -/
theorem reachable_emails_distinct (am : AuthManager) (h : AuthReachable am) :
    am.getAllUsers.Pairwise (fun u1 u2 => u1.email ≠ u2.email) := by
  induction h with
  | init currentUser ls => simp [AuthManager.getAllUsers, JSMap.values, JSMap.empty]
  | register id now name email password _ ih =>
    exact register_keeps_distinct _ id now name email password ih
  | login email password _ ih =>
    simpa only [AuthManager.getAllUsers, login_users] using ih
  | logout _ ih =>
    simpa only [AuthManager.getAllUsers, logout_users] using ih

theorem sampleAuth_reachable : AuthReachable sampleAuth :=
  AuthReachable.login _ _ (AuthReachable.register _ _ _ _ _
    (AuthReachable.register _ _ _ _ _ (AuthReachable.init none LocalStorage.empty)))

/-- Witness of C1: the state with two registered users is reachable, and its
two users have different emails. -/
theorem reachable_emails_distinct_witness :
    AuthReachable sampleAuth ∧
      sampleAuth.getAllUsers.Pairwise (fun u1 u2 => u1.email ≠ u2.email) :=
  ⟨sampleAuth_reachable, reachable_emails_distinct sampleAuth sampleAuth_reachable⟩

theorem eq_of_email_eq {users : List User}
    (h : users.Pairwise (fun u1 u2 => u1.email ≠ u2.email)) {u v : User}
    (hu : u ∈ users) (hv : v ∈ users) (he : u.email = v.email) : u = v := by
  have hnodup : (users.map User.email).Nodup := by
    rw [List.Nodup, List.pairwise_map]
    exact h
  exact List.inj_on_of_nodup_map hnodup hu hv he

/-- C2. In a state whose users have pairwise distinct emails, `login(email,
password)` returns a user exactly when the collection holds a user with that
email and that password, and then it returns that user; in every other case,
whether the email is unknown or the password is wrong, it throws the one error
`Credenciales incorrectas`. -/
theorem login_success_iff (am : AuthManager) (email password : String)
    (hdistinct : am.getAllUsers.Pairwise (fun u1 u2 => u1.email ≠ u2.email)) :
    ((∃ user, (am.login email password).2 = .ok user) ↔
        ∃ u ∈ am.getAllUsers, u.email = email ∧ u.password = password) ∧
    (∀ u ∈ am.getAllUsers, u.email = email → u.password = password →
        (am.login email password).2 = .ok u) ∧
    ((¬ ∃ u ∈ am.getAllUsers, u.email = email ∧ u.password = password) →
        (am.login email password).2 = .error (JSError.error "Credenciales incorrectas")) := by
  have key : ∀ u ∈ am.getAllUsers, u.email = email → u.password = password →
      (am.login email password).2 = .ok u := by
    intro u hu he hp
    unfold AuthManager.login
    split
    · rename_i hnone
      have := List.find?_eq_none.1 hnone u hu
      simp [he] at this
    · rename_i found hfound
      have hmem : found ∈ am.users.values := List.mem_of_find?_eq_some hfound
      have hemail : found.email = email := by
        simpa using List.find?_some hfound
      have : found = u := eq_of_email_eq hdistinct hmem hu (hemail.trans he.symm)
      subst this
      simp [User.verifyPassword, hp]
  have fail : (¬ ∃ u ∈ am.getAllUsers, u.email = email ∧ u.password = password) →
      (am.login email password).2 = .error (JSError.error "Credenciales incorrectas") := by
    intro hno
    unfold AuthManager.login
    split
    · rfl
    · rename_i found hfound
      have hmem : found ∈ am.users.values := List.mem_of_find?_eq_some hfound
      have hemail : found.email = email := by
        simpa using List.find?_some hfound
      have hpw : found.password ≠ password := fun hp => hno ⟨found, hmem, hemail, hp⟩
      simp [User.verifyPassword, hpw]
  refine ⟨⟨?_, ?_⟩, key, fail⟩
  · rintro ⟨user, hok⟩
    by_contra hno
    rw [fail hno] at hok
    cases hok
  · rintro ⟨u, hu, he, hp⟩
    exact ⟨u, key u hu he hp⟩

/-- Witness of C2: the sample state has pairwise distinct emails, so the
characterisation of `login` applies to it. -/
theorem login_success_iff_witness :
    sampleAuth.getAllUsers.Pairwise (fun u1 u2 => u1.email ≠ u2.email) ∧
    (((∃ user, (sampleAuth.login "ana@example.com" "secret").2 = .ok user) ↔
        ∃ u ∈ sampleAuth.getAllUsers, u.email = "ana@example.com" ∧ u.password = "secret") ∧
    (∀ u ∈ sampleAuth.getAllUsers, u.email = "ana@example.com" → u.password = "secret" →
        (sampleAuth.login "ana@example.com" "secret").2 = .ok u) ∧
    ((¬ ∃ u ∈ sampleAuth.getAllUsers, u.email = "ana@example.com" ∧ u.password = "secret") →
        (sampleAuth.login "ana@example.com" "secret").2 =
          .error (JSError.error "Credenciales incorrectas"))) :=
  ⟨by decide, login_success_iff sampleAuth "ana@example.com" "secret" (by decide)⟩

/-- C8. When some user of the collection already has the email, `register`
throws, and the state after the call (the user collection, the current session
and `localStorage` with its count of writes) is the state before it. -/
theorem register_duplicate_email (am : AuthManager) (id : String) (now : Int)
    (name email password : String) (h : ∃ u ∈ am.getAllUsers, u.email = email) :
    am.register id now name email password =
      (am, .error (JSError.error "El email ya está registrado")) := by
  have hfind : (am.users.values.find? (fun user => user.email == email)).isSome = true :=
    (find_email_isSome_iff _ _).2 h
  unfold AuthManager.register
  rw [if_pos hfind]

/-- Witness of C8: registering the email of the first sample user again. -/
theorem register_duplicate_email_witness :
    (∃ u ∈ sampleAuth.getAllUsers, u.email = "ana@example.com") ∧
    sampleAuth.register "u3" 3000 "Otra Ana" "ana@example.com" "x" =
      (sampleAuth, .error (JSError.error "El email ya está registrado")) :=
  ⟨by decide, register_duplicate_email sampleAuth "u3" 3000 "Otra Ana" "ana@example.com" "x"
    (by decide)⟩

/-! ## `TaskManager`: lookups, deletion and updates -/

namespace JSMap

variable {α : Type}

theorem get_eq_none_iff {m : JSMap α} {k : String} :
    m.get k = none ↔ ∀ e ∈ m.entries, e.1 ≠ k := by
  simp [get, List.find?_eq_none]

theorem delete_of_get_eq_none {m : JSMap α} {k : String} (h : m.get k = none) :
    m.delete k = (false, m) := by
  have hne := get_eq_none_iff.1 h
  have hhas : m.has k = false := by
    simp only [has, List.any_eq_false]
    intro e he
    simpa using hne e he
  have hfilter : m.entries.filter (fun e => e.1 != k) = m.entries := by
    rw [List.filter_eq_self]
    intro e he
    simpa using hne e he
  simp [delete, hhas, hfilter]

theorem find_mutateEntries (k : String) (f : α → α) (l : List (String × α)) :
    (mutateEntries k f l).find? (fun e => e.1 == k) =
      (l.find? (fun e => e.1 == k)).map (fun e => (e.1, f e.2)) := by
  induction l with
  | nil => rfl
  | cons a rest ih =>
    unfold mutateEntries
    by_cases h : a.1 = k
    · simp [h]
    · simp [h, ih]

theorem get_mutate (m : JSMap α) (k : String) (f : α → α) :
    (m.mutate k f).get k = (m.get k).map f := by
  simp only [get, mutate, find_mutateEntries, Option.map_map]
  rfl

end JSMap

theorem saveThen_tasks {ρ : Type} (tm : TaskManager) (result : ρ) :
    (tm.saveThen result).1.tasks = tm.tasks := by
  unfold TaskManager.saveThen TaskManager.saveToStorage
  split
  · rename_i h
    split at h
    · cases h
      rfl
    · cases h
  · rfl

/-- C10. `deleteTask(id)` with an id that is not in the collection returns
`false` and leaves the whole state as it was: the same collection, the same
persisted records and the same number of writes. -/
theorem deleteTask_absent (tm : TaskManager) (id : String) (h : tm.getTask id = none) :
    tm.deleteTask id = (tm, .ok false) := by
  unfold TaskManager.deleteTask
  rw [JSMap.delete_of_get_eq_none h]
  simp

/-- Witness of C10: an id that the sample collection does not hold. -/
theorem deleteTask_absent_witness :
    sampleTasks.getTask "nope" = none ∧ sampleTasks.deleteTask "nope" = (sampleTasks, .ok false) :=
  ⟨by decide, deleteTask_absent sampleTasks "nope" (by decide)⟩

theorem assign_id (t : Task) (key : String) (v : Val) : (t.assign key v).id = t.id := by
  unfold Task.assign
  split_ifs <;> try rfl
  split <;> rfl

theorem assign_createdAt (t : Task) (key : String) (v : Val) :
    (t.assign key v).createdAt = t.createdAt := by
  unfold Task.assign
  split_ifs <;> try rfl
  split <;> rfl

theorem applyKey_id_createdAt (updates : List (String × Val)) (t : Task) (key : String) :
    (applyKey updates t key).id = t.id ∧ (applyKey updates t key).createdAt = t.createdAt := by
  unfold applyKey
  split
  · exact ⟨assign_id _ _ _, assign_createdAt _ _ _⟩
  · exact ⟨rfl, rfl⟩

theorem foldl_applyKey_id_createdAt (updates : List (String × Val)) (keys : List String)
    (t : Task) :
    (keys.foldl (applyKey updates) t).id = t.id ∧
      (keys.foldl (applyKey updates) t).createdAt = t.createdAt := by
  induction keys generalizing t with
  | nil => exact ⟨rfl, rfl⟩
  | cons k rest ih =>
    simp only [List.foldl_cons]
    obtain ⟨h1, h2⟩ := ih (applyKey updates t k)
    obtain ⟨h3, h4⟩ := applyKey_id_createdAt updates t k
    exact ⟨h1.trans h3, h2.trans h4⟩

/-- C4. For a task stored under `id`, `updateTask(id, updates)` leaves the task
under `id`, and its `id` and `createdAt` are what they were, whatever the record
supplies; the record `{id: x, createdAt: t2, title: y}` changes `title` only. -/
theorem updateTask_keeps_id_createdAt (tm : TaskManager) (id : String)
    (updates : List (String × Val)) (task : Task) (h : tm.getTask id = some task) :
    (tm.updateTask id updates).1.getTask id = some (applyUpdates updates task) ∧
    (applyUpdates updates task).id = task.id ∧
    (applyUpdates updates task).createdAt = task.createdAt ∧
    (∀ x t2 y : Val, (tm.updateTask id [("id", x), ("createdAt", t2), ("title", y)]).1.getTask id =
      some { task with title := y }) := by
  have hget : ∀ u, (tm.updateTask id u).1.getTask id = some (applyUpdates u task) := by
    intro u
    unfold TaskManager.updateTask
    rw [h]
    simp only [TaskManager.getTask, saveThen_tasks, JSMap.get_mutate]
    rw [show tm.tasks.get id = some task from h]
    rfl
  refine ⟨hget _, (foldl_applyKey_id_createdAt _ _ _).1, (foldl_applyKey_id_createdAt _ _ _).2, ?_⟩
  intro x t2 y
  rw [hget]
  simp [applyUpdates, applyKey, Task.hasProperty, taskDataFields, Task.assign, readKey,
    List.lookup]

/-- Witness of C4: the task of the sample collection. -/
theorem updateTask_keeps_id_createdAt_witness :
    sampleTasks.getTask "t1" = some sampleTask ∧
    ((sampleTasks.updateTask "t1" [("id", Val.str "x")]).1.getTask "t1" =
      some (applyUpdates [("id", Val.str "x")] sampleTask) ∧
    (applyUpdates [("id", Val.str "x")] sampleTask).id = sampleTask.id ∧
    (applyUpdates [("id", Val.str "x")] sampleTask).createdAt = sampleTask.createdAt ∧
    (∀ x t2 y : Val,
      (sampleTasks.updateTask "t1" [("id", x), ("createdAt", t2), ("title", y)]).1.getTask "t1" =
      some { sampleTask with title := y })) :=
  ⟨by decide, updateTask_keeps_id_createdAt sampleTasks "t1" [("id", Val.str "x")] sampleTask
    (by decide)⟩

/-- C7 (evaluation at the failing input). A key that names an inherited method is
not ignored: `updateTask("t1", {toJSON: "x"})` stores the string as an own
property `toJSON` of the task, and the `saveToStorage()` that ends the call
throws a `TypeError`; without the key the task is unchanged and the call
returns it. -/
theorem updateTask_inherited_key :
    (sampleTasks.updateTask "t1" [("toJSON", Val.str "x")]).1.getTask "t1" =
      some { sampleTask with shadow := [("toJSON", Val.str "x")] } ∧
    (sampleTasks.updateTask "t1" [("toJSON", Val.str "x")]).2 = .error JSError.typeError ∧
    (sampleTasks.updateTask "t1" []).1.getTask "t1" = some sampleTask ∧
    (sampleTasks.updateTask "t1" []).2 = .ok (some sampleTask) :=
  ⟨by decide, rfl, by decide, rfl⟩

/-! ## The pairing of `completed` and `completedAt` -/

/-- The pairing as a property of one task: `completed` is a boolean,
`completedAt` is `null` or a `Date`, and the former is `true` exactly when the
latter is a `Date`. -/
theorem paired_iff (t : Task) :
    ((t.completed = Val.bool true ∧ ∃ ms, t.completedAt = Val.date ms) ∨
      (t.completed = Val.bool false ∧ t.completedAt = Val.null)) ↔
    ((t.completed = Val.bool true ↔ t.completedAt ≠ Val.null) ∧
      (t.completed = Val.bool true ∨ t.completed = Val.bool false) ∧
      (t.completedAt = Val.null ∨ ∃ ms, t.completedAt = Val.date ms)) := by
  constructor
  · rintro (⟨h1, ms, h2⟩ | ⟨h1, h2⟩)
    · simp [h1, h2]
    · simp [h1, h2]
  · rintro ⟨hiff, hc | hc, hn | ⟨ms, hd⟩⟩
    · exact absurd hn (hiff.1 hc)
    · exact Or.inl ⟨hc, ms, hd⟩
    · exact Or.inr ⟨hc, hn⟩
    · have : t.completed = Val.bool true := hiff.2 (by simp [hd])
      rw [hc] at this
      cases this

theorem assign_completed (t : Task) (key : String) (v : Val) :
    (t.assign key v).completed = if key = "completed" then v else t.completed := by
  unfold Task.assign
  split_ifs <;> try simp_all
  split <;> rfl

theorem assign_completedAt (t : Task) (key : String) (v : Val) :
    (t.assign key v).completedAt = if key = "completedAt" then v else t.completedAt := by
  unfold Task.assign
  split_ifs <;> try simp_all
  split <;> rfl

theorem applyKey_completed (updates : List (String × Val)) (t : Task) (key : String) :
    (applyKey updates t key).completed =
      if key = "completed" then readKey updates "completed" else t.completed := by
  unfold applyKey
  by_cases hk : key = "completed"
  · subst hk
    simp [Task.hasProperty, taskDataFields, assign_completed]
  · rw [if_neg hk]
    split
    · rw [assign_completed, if_neg hk]
    · rfl

theorem applyKey_completedAt (updates : List (String × Val)) (t : Task) (key : String) :
    (applyKey updates t key).completedAt =
      if key = "completedAt" then readKey updates "completedAt" else t.completedAt := by
  unfold applyKey
  by_cases hk : key = "completedAt"
  · subst hk
    simp [Task.hasProperty, taskDataFields, assign_completedAt]
  · rw [if_neg hk]
    split
    · rw [assign_completedAt, if_neg hk]
    · rfl

theorem foldl_applyKey_completed (updates : List (String × Val)) (keys : List String)
    (t : Task) :
    (keys.foldl (applyKey updates) t).completed =
      if "completed" ∈ keys then readKey updates "completed" else t.completed := by
  induction keys generalizing t with
  | nil => simp
  | cons k rest ih =>
    simp only [List.foldl_cons, ih, applyKey_completed, List.mem_cons]
    by_cases h1 : "completed" ∈ rest
    · simp [h1]
    · by_cases h2 : k = "completed"
      · simp [h2]
      · have : ¬ "completed" = k := fun h => h2 h.symm
        simp [h1, h2, this]

theorem foldl_applyKey_completedAt (updates : List (String × Val)) (keys : List String)
    (t : Task) :
    (keys.foldl (applyKey updates) t).completedAt =
      if "completedAt" ∈ keys then readKey updates "completedAt" else t.completedAt := by
  induction keys generalizing t with
  | nil => simp
  | cons k rest ih =>
    simp only [List.foldl_cons, ih, applyKey_completedAt, List.mem_cons]
    by_cases h1 : "completedAt" ∈ rest
    · simp [h1]
    · by_cases h2 : k = "completedAt"
      · simp [h2]
      · have : ¬ "completedAt" = k := fun h => h2 h.symm
        simp [h1, h2, this]

theorem mem_keys_iff_lookup (updates : List (String × Val)) (key : String) :
    key ∈ updates.map (fun e => e.1) ↔ (updates.lookup key).isSome = true := by
  rw [List.lookup_isSome_iff]
  simp only [List.mem_map, beq_iff_eq]
  constructor
  · rintro ⟨e, he, rfl⟩
    exact ⟨e, he, rfl⟩
  · rintro ⟨e, he, h⟩
    exact ⟨e, he, h.symm⟩

/-- What the loop of `updateTask` does to `completed`: the value of the record
when the record has the key, the old value otherwise. -/
theorem applyUpdates_completed (updates : List (String × Val)) (t : Task) :
    (applyUpdates updates t).completed = (updates.lookup "completed").getD t.completed := by
  unfold applyUpdates
  rw [foldl_applyKey_completed]
  cases h : updates.lookup "completed" with
  | none =>
    have : ¬ "completed" ∈ updates.map (fun e => e.1) := by
      rw [mem_keys_iff_lookup, h]
      simp
    simp [this]
  | some v =>
    have : "completed" ∈ updates.map (fun e => e.1) := by
      rw [mem_keys_iff_lookup, h]
      rfl
    simp [this, readKey, h]

/-- What the loop of `updateTask` does to `completedAt`. -/
theorem applyUpdates_completedAt (updates : List (String × Val)) (t : Task) :
    (applyUpdates updates t).completedAt =
      (updates.lookup "completedAt").getD t.completedAt := by
  unfold applyUpdates
  rw [foldl_applyKey_completedAt]
  cases h : updates.lookup "completedAt" with
  | none =>
    have : ¬ "completedAt" ∈ updates.map (fun e => e.1) := by
      rw [mem_keys_iff_lookup, h]
      simp
    simp [this]
  | some v =>
    have : "completedAt" ∈ updates.map (fun e => e.1) := by
      rw [mem_keys_iff_lookup, h]
      rfl
    simp [this, readKey, h]

theorem createTask_tasks (tm : TaskManager) (id : String) (now : Int)
    (title description createdBy assignedTo deadline : Val) :
    (tm.createTask id now title description createdBy assignedTo deadline).1.tasks =
      tm.tasks.set id (Task.new now id title description createdBy assignedTo deadline) := by
  simp only [TaskManager.createTask, saveThen_tasks]

theorem updateTask_tasks (tm : TaskManager) (id : String) (updates : List (String × Val)) :
    (tm.updateTask id updates).1.tasks = tm.tasks.mutate id (applyUpdates updates) ∨
      (tm.updateTask id updates).1.tasks = tm.tasks := by
  unfold TaskManager.updateTask
  split
  · exact Or.inr rfl
  · exact Or.inl (by simp only [saveThen_tasks])

theorem deleteTask_tasks (tm : TaskManager) (id : String) :
    (tm.deleteTask id).1.tasks = (tm.tasks.delete id).2 ∨ (tm.deleteTask id).1.tasks = tm.tasks := by
  unfold TaskManager.deleteTask
  split
  rename_i result tasks heq
  split
  · left
    rw [saveThen_tasks, heq]
  · exact Or.inr rfl

theorem loadInitialTasksFromAPI_tasks (tm : TaskManager) (clock : Nat → Int) :
    (tm.loadInitialTasksFromAPI clock).1.tasks =
      TaskManager.insertMissing clock 4 (TaskManager.mockTasks clock) tm.tasks := by
  simp only [TaskManager.loadInitialTasksFromAPI, saveThen_tasks]

theorem mem_values_insertMissing (clock : Nat → Int) (records : List TaskData) (i : Nat)
    (tasks : JSMap Task) (t : Task)
    (h : t ∈ (TaskManager.insertMissing clock i records tasks).values) :
    t ∈ tasks.values ∨ ∃ data ∈ records, ∃ now, t = Task.fromJSON now data := by
  induction records generalizing i tasks with
  | nil => exact Or.inl h
  | cons data rest ih =>
    unfold TaskManager.insertMissing at h
    rcases ih _ _ h with h | ⟨d, hd, now, h⟩
    · split at h
      · rcases JSMap.mem_values_set h with h | h
        · exact Or.inr ⟨data, List.mem_cons_self _ _, clock i, h⟩
        · exact Or.inl h
      · exact Or.inl h
    · exact Or.inr ⟨d, List.mem_cons_of_mem _ hd, now, h⟩

/-- An update record that keeps the two fields paired maps a paired task to a
paired task. -/
theorem applyUpdates_paired (updates : List (String × Val)) (hu : pairedUpdate updates)
    (t : Task)
    (ht : (t.completed = Val.bool true ∧ ∃ ms, t.completedAt = Val.date ms) ∨
      (t.completed = Val.bool false ∧ t.completedAt = Val.null)) :
    ((applyUpdates updates t).completed = Val.bool true ∧
        ∃ ms, (applyUpdates updates t).completedAt = Val.date ms) ∨
      ((applyUpdates updates t).completed = Val.bool false ∧
        (applyUpdates updates t).completedAt = Val.null) := by
  rw [applyUpdates_completed, applyUpdates_completedAt]
  rcases hu with ⟨h1, h2⟩ | ⟨h1, ms, h2⟩ | ⟨h1, h2⟩
  · rw [h1, h2]
    exact ht
  · rw [h1, h2]
    exact Or.inl ⟨rfl, ms, rfl⟩
  · rw [h1, h2]
    exact Or.inr ⟨rfl, rfl⟩

/-- The pairing is an invariant of the states reachable with paired updates. -/
theorem reachable_paired (tm : TaskManager) (h : TaskReachable pairedUpdate tm) :
    ∀ t ∈ tm.tasks.values,
      (t.completed = Val.bool true ∧ ∃ ms, t.completedAt = Val.date ms) ∨
        (t.completed = Val.bool false ∧ t.completedAt = Val.null) := by
  induction h with
  | init ls => simp [JSMap.values, JSMap.empty]
  | createTask id now title description createdBy assignedTo deadline _ ih =>
    intro t ht
    rw [createTask_tasks] at ht
    rcases JSMap.mem_values_set ht with h | h
    · subst h
      exact Or.inr ⟨rfl, rfl⟩
    · exact ih t h
  | updateTask id updates hallowed _ ih =>
    intro t ht
    rcases updateTask_tasks _ id updates with h | h
    · rw [h] at ht
      rcases JSMap.mem_values_mutate ht with h | ⟨t0, h0, rfl⟩
      · exact ih t h
      · exact applyUpdates_paired updates hallowed t0 (ih t0 h0)
    · rw [h] at ht
      exact ih t ht
  | deleteTask id _ ih =>
    intro t ht
    rcases deleteTask_tasks _ id with h | h
    · rw [h] at ht
      exact ih t (JSMap.mem_values_delete ht)
    · rw [h] at ht
      exact ih t ht
  | complete id now _ ih =>
    intro t ht
    rcases JSMap.mem_values_mutate ht with h | ⟨t0, _, rfl⟩
    · exact ih t h
    · exact Or.inl ⟨rfl, now, rfl⟩
  | uncomplete id _ ih =>
    intro t ht
    rcases JSMap.mem_values_mutate ht with h | ⟨t0, _, rfl⟩
    · exact ih t h
    · exact Or.inr ⟨rfl, rfl⟩
  | bootstrap clock _ ih =>
    intro t ht
    rw [loadInitialTasksFromAPI_tasks] at ht
    rcases mem_values_insertMissing _ _ _ _ _ ht with h | ⟨data, hdata, now, rfl⟩
    · exact ih t h
    · simp only [TaskManager.mockTasks, List.mem_cons, List.mem_singleton, List.not_mem_nil,
        or_false] at hdata
      rcases hdata with rfl | rfl
      · exact Or.inr ⟨rfl, rfl⟩
      · exact Or.inr ⟨rfl, rfl⟩

theorem halfCompleted_reachable : TaskReachable (fun _ => True) halfCompleted :=
  TaskReachable.updateTask _ _ trivial
    (TaskReachable.createTask _ _ _ _ _ _ _ (TaskReachable.init LocalStorage.empty))

/-- C3 (counterexample). After `createTask` and `updateTask("t1", {completed:
true})` the task has `completed` true and `completedAt` still `null`: in a
reachable state the two fields disagree. -/
theorem completed_without_completedAt :
    TaskReachable (fun _ => True) halfCompleted ∧
    ∃ t ∈ halfCompleted.getAllTasks,
      ¬ (t.completed = Val.bool true ↔ t.completedAt ≠ Val.null) :=
  ⟨halfCompleted_reachable,
    { sampleTask with completed := Val.bool true }, by decide, by decide⟩

/-- C3 (amended). In every state reachable from the empty collection by
`createTask`, `deleteTask`, `complete`, `uncomplete`, the bootstrap insertion and
`updateTask` with records that name neither `completed` nor `completedAt` or set
them together (`true` with a `Date`, `false` with `null`), every task has
`completed` true exactly when `completedAt` is present; `completed` is a boolean
and `completedAt` is `null` or a `Date`. -/
theorem reachable_completed_iff_completedAt (tm : TaskManager)
    (h : TaskReachable pairedUpdate tm) (t : Task) (ht : t ∈ tm.getAllTasks) :
    (t.completed = Val.bool true ↔ t.completedAt ≠ Val.null) ∧
    (t.completed = Val.bool true ∨ t.completed = Val.bool false) ∧
    (t.completedAt = Val.null ∨ ∃ ms, t.completedAt = Val.date ms) :=
  (paired_iff t).1 (reachable_paired tm h t ht)

theorem sampleCompleted_reachable : TaskReachable pairedUpdate sampleCompleted :=
  TaskReachable.bootstrap _
    (TaskReachable.updateTask _ _ (Or.inr (Or.inl ⟨by decide, 6000, by decide⟩))
      (TaskReachable.createTask _ _ _ _ _ _ _ (TaskReachable.init LocalStorage.empty)))

/-- Witness of C3 (amended): the completed sample task in a reachable state. -/
theorem reachable_completed_iff_completedAt_witness :
    TaskReachable pairedUpdate sampleCompleted ∧
    { sampleTask with completed := Val.bool true, completedAt := Val.date 6000 } ∈
      sampleCompleted.getAllTasks ∧
    ((Val.bool true = Val.bool true ↔ Val.date 6000 ≠ Val.null) ∧
      (Val.bool true = Val.bool true ∨ Val.bool true = Val.bool false) ∧
      (Val.date 6000 = Val.null ∨ ∃ ms, Val.date 6000 = Val.date ms)) :=
  ⟨sampleCompleted_reachable, by decide,
    reachable_completed_iff_completedAt sampleCompleted sampleCompleted_reachable
      { sampleTask with completed := Val.bool true, completedAt := Val.date 6000 } (by decide)⟩

/-! ## Filtering by user -/

/-- C6 (counterexample). `getFilteredTasks("all", "all")` returns the task of the
sample collection, which is assigned to `"u2"` and not to `"all"`: with
`userId = "all"` the result is not the set of tasks whose `assignedTo` equals
`userId`. -/
theorem getFilteredTasks_all_not_assignedTo :
    sampleTasks.getFilteredTasks "all" "all" = [sampleTask] ∧
    sampleTask.assignedTo ≠ Val.str "all" ∧
    sampleTasks.getFilteredTasks "all" "all" ≠
      sampleTasks.getAllTasks.filter (fun task => task.assignedTo == Val.str "all") := by
  decide

/-- C6 (amended). For a `userId` other than the literal `"all"`,
`getFilteredTasks("all", userId)` is the list of all tasks filtered by
`assignedTo === userId`: every task assigned to `userId`, no other task, in the
order of `getAllTasks`. For the literal `"all"` it is the list of all tasks. -/
theorem getFilteredTasks_by_user (tm : TaskManager) (userId : String) :
    (userId ≠ "all" →
      tm.getFilteredTasks "all" userId =
        tm.getAllTasks.filter (fun task => task.assignedTo == Val.str userId)) ∧
    tm.getFilteredTasks "all" "all" = tm.getAllTasks := by
  constructor
  · intro h
    unfold TaskManager.getFilteredTasks
    congr 1
    funext task
    simp [h]
  · unfold TaskManager.getFilteredTasks
    simp

/-- Witness of C6 (amended): filtering the sample collection by the user `"u2"`. -/
theorem getFilteredTasks_by_user_witness :
    "u2" ≠ "all" ∧
    sampleTasks.getFilteredTasks "all" "u2" =
      sampleTasks.getAllTasks.filter (fun task => task.assignedTo == Val.str "u2") :=
  ⟨by decide, (getFilteredTasks_by_user sampleTasks "u2").1 (by decide)⟩

/-! ## Serialisation -/

theorem defaultNull_dateOrNull (o : Option Int) :
    (Task.dateOrNull o).defaultNull = Task.dateOrNull o := by
  cases o <;> rfl

theorem isoOrNull_dateOrNull (v : Val) (h : v = Val.null ∨ ∃ ms, v = Val.date ms) :
    ∃ o, Task.isoOrNull v = .ok o ∧ Task.dateOrNull o = v := by
  rcases h with rfl | ⟨ms, rfl⟩
  · exact ⟨none, rfl, rfl⟩
  · exact ⟨some ms, rfl, rfl⟩

/-- C9. `User.fromJSON(u.toJSON())` is `u` (all five fields). For a task whose
`deadline` and `completedAt` are each `null` or a `Date`, `toJSON` returns a
record and `Task.fromJSON` of that record agrees with the task on all nine
fields; the two are the same object state when the task carries nothing but its
nine fields. The time at which `fromJSON` runs does not matter. -/
theorem toJSON_fromJSON (u : User) (t : Task) (now : Int)
    (hdeadline : t.deadline = Val.null ∨ ∃ ms, t.deadline = Val.date ms)
    (hcompletedAt : t.completedAt = Val.null ∨ ∃ ms, t.completedAt = Val.date ms) :
    User.fromJSON now u.toJSON = u ∧
    ∃ data, t.toJSON = .ok data ∧
      (Task.fromJSON now data).id = t.id ∧
      (Task.fromJSON now data).title = t.title ∧
      (Task.fromJSON now data).description = t.description ∧
      (Task.fromJSON now data).createdBy = t.createdBy ∧
      (Task.fromJSON now data).assignedTo = t.assignedTo ∧
      (Task.fromJSON now data).deadline = t.deadline ∧
      (Task.fromJSON now data).createdAt = t.createdAt ∧
      (Task.fromJSON now data).completed = t.completed ∧
      (Task.fromJSON now data).completedAt = t.completedAt ∧
      (t.proto = Proto.taskPrototype → t.shadow = [] →
        t.callToJSON = .ok data ∧ Task.fromJSON now data = t) := by
  refine ⟨rfl, ?_⟩
  obtain ⟨d, hd1, hd2⟩ := isoOrNull_dateOrNull t.deadline hdeadline
  obtain ⟨c, hc1, hc2⟩ := isoOrNull_dateOrNull t.completedAt hcompletedAt
  refine ⟨{ id := t.id, title := t.title, description := t.description,
            createdBy := t.createdBy, assignedTo := t.assignedTo, deadline := d,
            createdAt := t.createdAt, completed := t.completed, completedAt := c }, ?_,
          rfl, rfl, rfl, rfl, rfl, (defaultNull_dateOrNull d).trans hd2, rfl, rfl, hc2, ?_⟩
  · simp only [Task.toJSON, hd1, hc1]
    rfl
  · intro hp hs
    constructor
    · simp only [Task.callToJSON, hp, hs, Task.toJSON, hd1, hc1]
      rfl
    · cases t
      simp only at hp hs hd2 hc2
      have hd3 := defaultNull_dateOrNull d
      rw [hd2] at hd3
      simp only [Task.fromJSON, Task.new, hd2, hd3, hc2, hp, hs]

/-- Witness of C9: a user and a task with a deadline, completed at a later time. -/
theorem toJSON_fromJSON_witness :
    ((Task.new 5000 "t1" (Val.str "a") (Val.str "b") (Val.str "u1") (Val.str "u2")
        (Val.date 9000)).complete 6000).deadline = Val.date 9000 ∧
    User.fromJSON 1 (User.new 0 "u1" "Ana" "ana@example.com" "secret").toJSON =
      User.new 0 "u1" "Ana" "ana@example.com" "secret" ∧
    Task.fromJSON 1 { id := "t1", title := Val.str "a", description := Val.str "b",
                      createdBy := Val.str "u1", assignedTo := Val.str "u2",
                      deadline := some 9000, createdAt := 5000,
                      completed := Val.bool true, completedAt := some 6000 } =
      (Task.new 5000 "t1" (Val.str "a") (Val.str "b") (Val.str "u1") (Val.str "u2")
        (Val.date 9000)).complete 6000 := by
  have h := toJSON_fromJSON (User.new 0 "u1" "Ana" "ana@example.com" "secret")
    ((Task.new 5000 "t1" (Val.str "a") (Val.str "b") (Val.str "u1") (Val.str "u2")
      (Val.date 9000)).complete 6000) 1 (Or.inr ⟨9000, rfl⟩) (Or.inr ⟨6000, rfl⟩)
  refine ⟨rfl, h.1, ?_⟩
  obtain ⟨data, hdata, _, _, _, _, _, _, _, _, _, hfull⟩ := h.2
  have hd : data = { id := "t1", title := Val.str "a", description := Val.str "b",
                     createdBy := Val.str "u1", assignedTo := Val.str "u2",
                     deadline := some 9000, createdAt := 5000,
                     completed := Val.bool true, completedAt := some 6000 } := by
    have : Except.ok data = (Except.ok _ : Except JSError TaskData) := hdata.symm.trans rfl
    exact (Except.ok.inj this)
  rw [← hd]
  exact (hfull rfl rfl).2

/-! ## `getStatistics`: binary64 rounding against exact rounding -/

theorem log2Fuel_spec (fuel n : Nat) (hn : 0 < n) (hf : n ≤ fuel) :
    2 ^ log2Fuel fuel n ≤ n ∧ n < 2 ^ (log2Fuel fuel n + 1) := by
  induction fuel generalizing n with
  | zero => omega
  | succ f ih =>
    simp only [log2Fuel]
    split_ifs with h
    · simp
      omega
    · have := ih (n / 2) (by omega) (by omega)
      rw [pow_succ, pow_succ]
      omega

theorem log2Floor_spec (n : Nat) (hn : 0 < n) :
    2 ^ log2Floor n ≤ n ∧ n < 2 ^ (log2Floor n + 1) :=
  log2Fuel_spec n n hn le_rfl

theorem roundHalfEven_spec (n d : Nat) (hd : 0 < d) :
    2 * (roundHalfEven n d * d) ≤ 2 * n + d ∧ 2 * n ≤ 2 * (roundHalfEven n d * d) + d := by
  have h1 := Nat.div_add_mod n d
  have h2 := Nat.mod_lt n hd
  have h3 : (n / d + 1) * d = d * (n / d) + d := by ring
  have h4 : n / d * d = d * (n / d) := by ring
  unfold roundHalfEven
  simp only
  split_ifs <;> (first | rw [h3] | rw [h4]) <;> omega

theorem roundHalfEven_rel (N D : Nat) (hD : 0 < D) (hscale : D * 2 ^ 52 ≤ N) :
    (roundHalfEven N D : ℚ) ≤ (1 + 1 / 2 ^ 53) * (N / D) ∧
      (1 - 1 / 2 ^ 53) * (N / D) ≤ (roundHalfEven N D : ℚ) := by
  obtain ⟨h1, h2⟩ := roundHalfEven_spec N D hD
  have h1q : (2 : ℚ) * ((roundHalfEven N D : ℚ) * D) ≤ 2 * N + D := by exact_mod_cast h1
  have h2q : (2 : ℚ) * N ≤ 2 * ((roundHalfEven N D : ℚ) * D) + D := by exact_mod_cast h2
  have h3q : (D : ℚ) * 2 ^ 52 ≤ N := by exact_mod_cast hscale
  have hDq : (0 : ℚ) < D := by exact_mod_cast hD
  constructor
  · rw [← mul_div_assoc, le_div_iff₀ hDq]
    norm_num at h3q ⊢
    linarith
  · rw [← mul_div_assoc, div_le_iff₀ hDq]
    norm_num at h3q ⊢
    linarith

/-- The scaling of `F64.round` is the one of a 53-bit significand: the fraction
that is rounded to an integer lies in `[2^52, 2^53)`. -/
theorem round_scaled (n d : Nat) (hn : 0 < n) (hd : 0 < d) :
    ∃ S : Nat,
      (F64.round n d = ⟨roundHalfEven (n * 2 ^ S) d, 2 ^ S⟩ ∧
        d * 2 ^ 52 ≤ n * 2 ^ S ∧ n * 2 ^ S < d * 2 ^ 53) ∨
      (F64.round n d = ⟨roundHalfEven n (d * 2 ^ S) * 2 ^ S, 1⟩ ∧
        d * 2 ^ S * 2 ^ 52 ≤ n ∧ n < d * 2 ^ S * 2 ^ 53) := by
  obtain ⟨hn1, hn2⟩ := log2Floor_spec n hn
  obtain ⟨hd1, hd2⟩ := log2Floor_spec d hd
  have hne : ¬ (n = 0 ∨ d = 0) := by omega
  unfold F64.round
  rw [if_neg hne]
  generalize log2Floor n = ln at hn1 hn2
  generalize log2Floor d = ld at hd1 hd2
  rw [pow_succ] at hn2 hd2
  have hpos : (0 : Nat) < 2 ^ ld := by positivity
  by_cases hc : d * 2 ^ ln ≤ n * 2 ^ ld
  · simp only [if_pos hc]
    by_cases hs : (0 : Int) ≤ 52 - ((ln : Int) - ld)
    · rw [if_pos hs]
      have hS : ((52 : Int) - ((ln : Int) - ld)).toNat + ln = 52 + ld := by omega
      generalize ((52 : Int) - ((ln : Int) - ld)).toNat = S at hS
      have hp : (2 : Nat) ^ 52 * 2 ^ ld = 2 ^ ln * 2 ^ S := by
        rw [← pow_add, ← pow_add]
        congr 1
        omega
      refine ⟨S, Or.inl ⟨rfl, ?_, ?_⟩⟩
      · have h3 : d * 2 ^ 52 * 2 ^ ld ≤ n * 2 ^ S * 2 ^ ld := by
          calc d * 2 ^ 52 * 2 ^ ld = d * 2 ^ ln * 2 ^ S := by rw [mul_assoc, hp, mul_assoc]
            _ ≤ n * 2 ^ ld * 2 ^ S := Nat.mul_le_mul_right _ hc
            _ = n * 2 ^ S * 2 ^ ld := by ring
        exact Nat.le_of_mul_le_mul_right h3 hpos
      · calc n * 2 ^ S < 2 ^ ln * 2 * 2 ^ S := Nat.mul_lt_mul_of_pos_right hn2 (by positivity)
          _ = 2 ^ ld * 2 ^ 53 := by
            have : (2 : Nat) ^ ln * 2 * 2 ^ S = 2 ^ ln * 2 ^ S * 2 := by ring
            rw [this, ← hp]
            ring
          _ ≤ d * 2 ^ 53 := Nat.mul_le_mul_right _ hd1
    · rw [if_neg hs]
      have hS : (-((52 : Int) - ((ln : Int) - ld))).toNat + 52 + ld = ln := by omega
      generalize (-((52 : Int) - ((ln : Int) - ld))).toNat = S at hS
      have hp : (2 : Nat) ^ S * 2 ^ 52 * 2 ^ ld = 2 ^ ln := by
        rw [← pow_add, ← pow_add]
        congr 1
      refine ⟨S, Or.inr ⟨rfl, ?_, ?_⟩⟩
      · have h3 : d * 2 ^ S * 2 ^ 52 * 2 ^ ld ≤ n * 2 ^ ld := by
          calc d * 2 ^ S * 2 ^ 52 * 2 ^ ld = d * (2 ^ S * 2 ^ 52 * 2 ^ ld) := by ring
            _ = d * 2 ^ ln := by rw [hp]
            _ ≤ n * 2 ^ ld := hc
        exact Nat.le_of_mul_le_mul_right h3 hpos
      · calc n < 2 ^ ln * 2 := hn2
          _ = 2 ^ ld * 2 ^ S * 2 ^ 53 := by
            rw [← hp]
            ring
          _ ≤ d * 2 ^ S * 2 ^ 53 :=
            Nat.mul_le_mul_right _ (Nat.mul_le_mul_right _ hd1)
  · simp only [if_neg hc]
    have hc' : n * 2 ^ ld < d * 2 ^ ln := Nat.lt_of_not_le hc
    by_cases hs : (0 : Int) ≤ 52 - ((ln : Int) - ld - 1)
    · rw [if_pos hs]
      have hS : ((52 : Int) - ((ln : Int) - ld - 1)).toNat + ln = 53 + ld := by omega
      generalize ((52 : Int) - ((ln : Int) - ld - 1)).toNat = S at hS
      have hp : (2 : Nat) ^ ln * 2 ^ S = 2 ^ 53 * 2 ^ ld := by
        rw [← pow_add, ← pow_add]
        congr 1
        omega
      refine ⟨S, Or.inl ⟨rfl, ?_, ?_⟩⟩
      · calc d * 2 ^ 52 ≤ (2 ^ ld * 2) * 2 ^ 52 := Nat.mul_le_mul_right _ hd2.le
          _ = 2 ^ ln * 2 ^ S := by
            rw [hp]
            ring
          _ ≤ n * 2 ^ S := Nat.mul_le_mul_right _ hn1
      · have h3 : n * 2 ^ S * 2 ^ ld < d * 2 ^ 53 * 2 ^ ld := by
          calc n * 2 ^ S * 2 ^ ld = n * 2 ^ ld * 2 ^ S := by ring
            _ < d * 2 ^ ln * 2 ^ S := Nat.mul_lt_mul_of_pos_right hc' (by positivity)
            _ = d * 2 ^ 53 * 2 ^ ld := by rw [mul_assoc, hp, mul_assoc]
        exact Nat.lt_of_mul_lt_mul_right h3
    · rw [if_neg hs]
      have hS : (-((52 : Int) - ((ln : Int) - ld - 1))).toNat + 53 + ld = ln := by omega
      generalize (-((52 : Int) - ((ln : Int) - ld - 1))).toNat = S at hS
      have hp : (2 : Nat) ^ S * 2 ^ 53 * 2 ^ ld = 2 ^ ln := by
        rw [← pow_add, ← pow_add]
        congr 1
      refine ⟨S, Or.inr ⟨rfl, ?_, ?_⟩⟩
      · calc d * 2 ^ S * 2 ^ 52 ≤ (2 ^ ld * 2) * 2 ^ S * 2 ^ 52 :=
              Nat.mul_le_mul_right _ (Nat.mul_le_mul_right _ hd2.le)
          _ = 2 ^ ln := by
            rw [← hp]
            ring
          _ ≤ n := hn1
      · have h3 : n * 2 ^ ld < d * 2 ^ S * 2 ^ 53 * 2 ^ ld := by
          calc n * 2 ^ ld < d * 2 ^ ln := hc'
            _ = d * 2 ^ S * 2 ^ 53 * 2 ^ ld := by
              rw [← hp]
              ring
        exact Nat.lt_of_mul_lt_mul_right h3

/-- Each rounding has a relative error of at most `2^-53`. -/
theorem round_spec (n d : Nat) (hn : 0 < n) (hd : 0 < d) :
    0 < (F64.round n d).den ∧
    (F64.round n d).toRat ≤ (1 + 1 / 2 ^ 53) * (n / d) ∧
    (1 - 1 / 2 ^ 53) * (n / d) ≤ (F64.round n d).toRat := by
  have hdq : (0 : ℚ) < d := by exact_mod_cast hd
  obtain ⟨S, ⟨hF, hS, _⟩ | ⟨hF, hS, _⟩⟩ := round_scaled n d hn hd
  · rw [hF]
    obtain ⟨h1, h2⟩ := roundHalfEven_rel (n * 2 ^ S) d hd hS
    have hpow : (0 : ℚ) < 2 ^ S := by positivity
    have e : ((n * 2 ^ S : Nat) : ℚ) / d = (n / d) * 2 ^ S := by
      push_cast
      ring
    rw [e] at h1 h2
    refine ⟨by positivity, ?_, ?_⟩
    · simp only [F64.toRat]
      push_cast
      rw [div_le_iff₀ hpow]
      linarith
    · simp only [F64.toRat]
      push_cast
      rw [le_div_iff₀ hpow]
      linarith
  · rw [hF]
    obtain ⟨h1, h2⟩ := roundHalfEven_rel n (d * 2 ^ S) (by positivity) hS
    have hpow : (0 : ℚ) < 2 ^ S := by positivity
    have e : (n : ℚ) / ((d * 2 ^ S : Nat) : ℚ) * 2 ^ S = n / d := by
      push_cast
      field_simp
      ring
    refine ⟨Nat.one_pos, ?_, ?_⟩
    · simp only [F64.toRat]
      push_cast
      rw [← e]
      have := mul_le_mul_of_nonneg_right h1 hpow.le
      linarith
    · simp only [F64.toRat]
      push_cast
      rw [← e]
      have := mul_le_mul_of_nonneg_right h2 hpow.le
      linarith

theorem roundHalfEven_one (k : Nat) : roundHalfEven k 1 = k := by
  simp [roundHalfEven, Nat.mod_one]

theorem ofNat_spec (n : Nat) (hn : n < 2 ^ 53) :
    0 < (F64.ofNat n).den ∧ (F64.ofNat n).toRat = n := by
  rcases Nat.eq_zero_or_pos n with rfl | hpos
  · simp [F64.ofNat, F64.round, F64.toRat]
  · obtain ⟨h1, _⟩ := log2Floor_spec n hpos
    have hlt : log2Floor n < 53 := by
      by_contra hge
      have : 2 ^ 53 ≤ 2 ^ log2Floor n := Nat.pow_le_pow_right (by norm_num) (by omega)
      omega
    have hone : log2Floor 1 = 0 := by decide
    have hne : ¬ (n = 0 ∨ 1 = 0) := by omega
    unfold F64.ofNat F64.round
    rw [if_neg hne, hone]
    generalize log2Floor n = ln at h1 hlt
    have hc : 1 * 2 ^ ln ≤ n * 2 ^ 0 := by simpa using h1
    simp only [if_pos hc]
    have hs : (0 : Int) ≤ 52 - ((ln : Int) - (0 : Nat)) := by omega
    rw [if_pos hs, roundHalfEven_one]
    refine ⟨by positivity, ?_⟩
    simp only [F64.toRat]
    push_cast
    field_simp

theorem num_pos_of_toRat_pos (x : F64) (h : 0 < x.toRat) : 0 < x.num := by
  rcases Nat.eq_zero_or_pos x.num with h0 | hpos
  · simp [F64.toRat, h0] at h
  · exact hpos

theorem div_spec (a b : F64) (ha : 0 < a.num) (hb : 0 < b.num) (had : 0 < a.den)
    (hbd : 0 < b.den) :
    0 < (F64.div a b).den ∧
    (F64.div a b).toRat ≤ (1 + 1 / 2 ^ 53) * (a.toRat / b.toRat) ∧
    (1 - 1 / 2 ^ 53) * (a.toRat / b.toRat) ≤ (F64.div a b).toRat := by
  have h := round_spec (a.num * b.den) (a.den * b.num) (by positivity) (by positivity)
  have e : ((a.num * b.den : Nat) : ℚ) / ((a.den * b.num : Nat) : ℚ) = a.toRat / b.toRat := by
    have h1 : (a.den : ℚ) ≠ 0 := by exact_mod_cast had.ne'
    have h2 : (b.den : ℚ) ≠ 0 := by exact_mod_cast hbd.ne'
    have h3 : (b.num : ℚ) ≠ 0 := by exact_mod_cast hb.ne'
    simp only [F64.toRat]
    push_cast
    field_simp
  rw [e] at h
  exact h

theorem mul_spec (a b : F64) (ha : 0 < a.num) (hb : 0 < b.num) (had : 0 < a.den)
    (hbd : 0 < b.den) :
    0 < (F64.mul a b).den ∧
    (F64.mul a b).toRat ≤ (1 + 1 / 2 ^ 53) * (a.toRat * b.toRat) ∧
    (1 - 1 / 2 ^ 53) * (a.toRat * b.toRat) ≤ (F64.mul a b).toRat := by
  have h := round_spec (a.num * b.num) (a.den * b.den) (by positivity) (by positivity)
  have e : ((a.num * b.num : Nat) : ℚ) / ((a.den * b.den : Nat) : ℚ) = a.toRat * b.toRat := by
    have h1 : (a.den : ℚ) ≠ 0 := by exact_mod_cast had.ne'
    have h2 : (b.den : ℚ) ≠ 0 := by exact_mod_cast hbd.ne'
    simp only [F64.toRat]
    push_cast
    field_simp
  rw [e] at h
  exact h

theorem percent_spec (c t : Nat) (ht : 0 < t) (hct : c ≤ t) (ht32 : t < 2 ^ 32) :
    F64.mathRound (F64.mul (F64.div (F64.ofNat c) (F64.ofNat t)) (F64.ofNat 100)) ≤
        (200 * c + t) / (2 * t) ∧
    (200 * c + t) / (2 * t) ≤
        F64.mathRound (F64.mul (F64.div (F64.ofNat c) (F64.ofNat t)) (F64.ofNat 100)) + 1 ∧
    ((200 * c + t) % (2 * t) ≠ 0 →
      F64.mathRound (F64.mul (F64.div (F64.ofNat c) (F64.ofNat t)) (F64.ofNat 100)) =
        (200 * c + t) / (2 * t)) := by
  rcases Nat.eq_zero_or_pos c with rfl | hc
  · have h0 : F64.mathRound (F64.mul (F64.div (F64.ofNat 0) (F64.ofNat t)) (F64.ofNat 100)) = 0 := by
      simp [F64.ofNat, F64.div, F64.mul, F64.round, F64.mathRound]
    have hE : (200 * 0 + t) / (2 * t) = 0 := Nat.div_eq_of_lt (by omega)
    rw [h0, hE]
    simp
  · -- the operands are exact
    obtain ⟨hCd, hCv⟩ := ofNat_spec c (by omega)
    obtain ⟨hTd, hTv⟩ := ofNat_spec t (by omega)
    obtain ⟨hHd, hHv⟩ := ofNat_spec 100 (by norm_num)
    have hcq : (0 : ℚ) < c := by exact_mod_cast hc
    have htq : (0 : ℚ) < t := by exact_mod_cast ht
    have hCn : 0 < (F64.ofNat c).num := num_pos_of_toRat_pos _ (by rw [hCv]; exact hcq)
    have hTn : 0 < (F64.ofNat t).num := num_pos_of_toRat_pos _ (by rw [hTv]; exact htq)
    have hHn : 0 < (F64.ofNat 100).num := num_pos_of_toRat_pos _ (by rw [hHv]; norm_num)
    -- the quotient
    obtain ⟨h1d, h1u, h1l⟩ := div_spec (F64.ofNat c) (F64.ofNat t) hCn hTn hCd hTd
    rw [hCv, hTv] at h1u h1l
    set x1 := F64.div (F64.ofNat c) (F64.ofNat t) with hx1
    set q : ℚ := (c : ℚ) / t with hq
    have hq0 : 0 < q := div_pos hcq htq
    have hq1 : q ≤ 1 := by
      rw [hq, div_le_one htq]
      exact_mod_cast hct
    have hx1pos : 0 < x1.toRat := by
      have : (0 : ℚ) < (1 - 1 / 2 ^ 53) * q := by
        apply mul_pos _ hq0
        norm_num
      linarith
    have h1n : 0 < x1.num := num_pos_of_toRat_pos _ hx1pos
    -- the product
    obtain ⟨h2d, h2u, h2l⟩ := mul_spec x1 (F64.ofNat 100) h1n hHn h1d hHd
    rw [hHv] at h2u h2l
    set x2 := F64.mul x1 (F64.ofNat 100) with hx2
    -- the rounding to an integer
    have hb : (0 : ℚ) < x2.den := by exact_mod_cast h2d
    set P := F64.mathRound x2 with hP
    have hPdef : P = (2 * x2.num + x2.den) / (2 * x2.den) := rfl
    have hP1 : 2 * x2.den * P ≤ 2 * x2.num + x2.den := by
      rw [hPdef]
      exact Nat.mul_div_le _ _
    have hP2 : 2 * x2.num + x2.den < 2 * x2.den * (P + 1) := by
      rw [hPdef]
      exact Nat.lt_mul_div_succ _ (by omega)
    have hv : x2.toRat * x2.den = x2.num := by
      simp only [F64.toRat]
      field_simp
    have hP1q : (P : ℚ) ≤ x2.toRat + 1 / 2 := by
      have h : (2 : ℚ) * x2.den * P ≤ 2 * x2.num + x2.den := by exact_mod_cast hP1
      rw [← hv] at h
      have h' : (P : ℚ) * (2 * x2.den) ≤ (x2.toRat + 1 / 2) * (2 * x2.den) := by linarith
      exact le_of_mul_le_mul_right h' (by positivity)
    have hP2q : x2.toRat + 1 / 2 < (P : ℚ) + 1 := by
      have h : (2 : ℚ) * x2.num + x2.den < 2 * x2.den * (P + 1) := by exact_mod_cast hP2
      rw [← hv] at h
      have h' : (x2.toRat + 1 / 2) * (2 * x2.den) < ((P : ℚ) + 1) * (2 * x2.den) := by linarith
      exact lt_of_mul_lt_mul_right h' (by positivity)
    -- the exact rounding
    set E := (200 * c + t) / (2 * t) with hE
    have hE0 := Nat.div_add_mod (200 * c + t) (2 * t)
    have hEr := Nat.mod_lt (200 * c + t) (show 0 < 2 * t by omega)
    rw [← hE] at hE0
    set r := (200 * c + t) % (2 * t) with hr
    have hct' : q * t = c := by
      rw [hq]
      field_simp
    set δ : ℚ := 1 / (2 * t) with hδ
    have hδt : δ * (2 * t) = 1 := by
      rw [hδ]
      field_simp
    have hδ32 : (1 : ℚ) / 2 ^ 33 < δ := by
      rw [hδ]
      apply one_div_lt_one_div_of_lt (by positivity)
      have : (t : ℚ) < 2 ^ 32 := by exact_mod_cast ht32
      linarith
    have hE0q : (2 : ℚ) * t * E + r = 200 * c + t := by exact_mod_cast hE0
    have hErq : (r : ℚ) + 1 ≤ 2 * t := by exact_mod_cast hEr
    have hr0 : (0 : ℚ) ≤ r := by positivity
    -- `E ≤ 100 q + 1/2 ≤ E + 1 - δ`
    have hE1 : (E : ℚ) ≤ 100 * q + 1 / 2 := by
      have h' : (E : ℚ) * (2 * t) ≤ (100 * q + 1 / 2) * (2 * t) := by
        have : (100 * q + 1 / 2) * (2 * t) = 200 * (q * t) + t := by ring
        rw [this, hct']
        linarith
      exact le_of_mul_le_mul_right h' (by positivity)
    have hE2 : 100 * q + 1 / 2 + δ ≤ (E : ℚ) + 1 := by
      have h' : (100 * q + 1 / 2 + δ) * (2 * t) ≤ ((E : ℚ) + 1) * (2 * t) := by
        have : (100 * q + 1 / 2 + δ) * (2 * t) = 200 * (q * t) + t + δ * (2 * t) := by ring
        rw [this, hct', hδt]
        linarith
      exact le_of_mul_le_mul_right h' (by positivity)
    norm_num at h1u h1l h2u h2l hδ32
    refine ⟨?_, ?_, ?_⟩
    · have : (P : ℚ) < (E : ℚ) + 1 := by linarith
      have : P < E + 1 := by exact_mod_cast this
      omega
    · have : (E : ℚ) < (P : ℚ) + 2 := by linarith
      have : E < P + 2 := by exact_mod_cast this
      omega
    · intro hne
      have hr1 : (1 : ℚ) ≤ r := by
        have : 1 ≤ r := Nat.one_le_iff_ne_zero.2 hne
        exact_mod_cast this
      have hE3 : (E : ℚ) + δ ≤ 100 * q + 1 / 2 := by
        have h' : ((E : ℚ) + δ) * (2 * t) ≤ (100 * q + 1 / 2) * (2 * t) := by
          have e1 : (100 * q + 1 / 2) * (2 * t) = 200 * (q * t) + t := by ring
          have e2 : ((E : ℚ) + δ) * (2 * t) = 2 * t * E + δ * (2 * t) := by ring
          rw [e1, e2, hct', hδt]
          linarith
        exact le_of_mul_le_mul_right h' (by positivity)
      have h1 : (E : ℚ) < (P : ℚ) + 1 := by linarith
      have h2 : E < P + 1 := by exact_mod_cast h1
      have h3 : (P : ℚ) < (E : ℚ) + 1 := by linarith
      have h4 : P < E + 1 := by exact_mod_cast h3
      omega

theorem getStatistics_eq (tm : TaskManager) :
    tm.getStatistics =
      { totalTasks := tm.getAllTasks.length,
        completedTasks := (tm.getAllTasks.filter (fun task => task.completed.truthy)).length,
        completionPercentage :=
          if tm.getAllTasks.length > 0 then
            F64.mathRound (F64.mul (F64.div
              (F64.ofNat (tm.getAllTasks.filter (fun task => task.completed.truthy)).length)
              (F64.ofNat tm.getAllTasks.length)) (F64.ofNat 100))
          else 0 } :=
  rfl

/-- C5 (counterexample). With 40 tasks of which 23 are completed, `getStatistics`
returns `completionPercentage = 57`: the Number `(23 / 40) * 100` is
`57.49999999999999`, while the exact value `57.5` rounds to `58`. -/
theorem getStatistics_not_exact :
    (tasksWith 40 23).getStatistics =
      { totalTasks := 40, completedTasks := 23, completionPercentage := 57 } ∧
    exactPercentage 23 40 = 58 := by
  decide!

/-- C5 (amended). `getStatistics` returns the number of tasks, the number of tasks
whose `completed` is truthy and, for an empty collection, the percentage `0`.
For a non-empty collection (an array has fewer than `2^32` elements) the
percentage is the exact rounding of `100 * completed / total` unless that value
lies exactly half-way between two integers; at such a half it is the exact
rounding or one below it. Three tasks with one completed give `{3, 1, 33}`. -/
theorem getStatistics_spec (tm : TaskManager) (hsize : tm.getAllTasks.length < 2 ^ 32) :
    tm.getStatistics.totalTasks = tm.getAllTasks.length ∧
    tm.getStatistics.completedTasks =
      (tm.getAllTasks.filter (fun task => task.completed.truthy)).length ∧
    (tm.getAllTasks = [] →
      tm.getStatistics = { totalTasks := 0, completedTasks := 0, completionPercentage := 0 }) ∧
    tm.getStatistics.completionPercentage ≤
      exactPercentage tm.getStatistics.completedTasks tm.getStatistics.totalTasks ∧
    exactPercentage tm.getStatistics.completedTasks tm.getStatistics.totalTasks ≤
      tm.getStatistics.completionPercentage + 1 ∧
    ((200 * tm.getStatistics.completedTasks + tm.getStatistics.totalTasks) %
        (2 * tm.getStatistics.totalTasks) ≠ 0 →
      tm.getStatistics.completionPercentage =
        exactPercentage tm.getStatistics.completedTasks tm.getStatistics.totalTasks) ∧
    (tm.getStatistics.totalTasks = 3 → tm.getStatistics.completedTasks = 1 →
      tm.getStatistics = { totalTasks := 3, completedTasks := 1, completionPercentage := 33 }) := by
  rw [getStatistics_eq]
  simp only
  generalize hc : (tm.getAllTasks.filter (fun task => task.completed.truthy)).length = c
  have hct : c ≤ tm.getAllTasks.length := by
    rw [← hc]
    exact List.length_filter_le _ _
  generalize hlen : tm.getAllTasks.length = t at hsize hct
  refine ⟨trivial, trivial, ?_, ?_⟩
  · intro hnil
    have ht0 : t = 0 := by rw [← hlen, hnil]; rfl
    have hc0 : c = 0 := by omega
    subst ht0
    subst hc0
    rfl
  · rcases Nat.eq_zero_or_pos t with rfl | ht
    · have hc0 : c = 0 := by omega
      subst hc0
      simp [exactPercentage]
    · obtain ⟨h1, h2, h3⟩ := percent_spec c t ht hct hsize
      have hE : exactPercentage c t = (200 * c + t) / (2 * t) := by
        simp [exactPercentage, ht.ne']
      rw [if_pos ht, hE]
      refine ⟨h1, h2, h3, ?_⟩
      intro ht3 hc1
      subst ht3
      subst hc1
      decide!

/-- Witness of C5 (amended): the collection of 40 tasks with 23 completed. -/
theorem getStatistics_spec_witness :
    (tasksWith 40 23).getAllTasks.length < 2 ^ 32 ∧
    (tasksWith 40 23).getStatistics.completionPercentage ≤
      exactPercentage (tasksWith 40 23).getStatistics.completedTasks
        (tasksWith 40 23).getStatistics.totalTasks ∧
    exactPercentage (tasksWith 40 23).getStatistics.completedTasks
        (tasksWith 40 23).getStatistics.totalTasks ≤
      (tasksWith 40 23).getStatistics.completionPercentage + 1 :=
  ⟨by decide!, (getStatistics_spec (tasksWith 40 23) (by decide!)).2.2.2.1,
    (getStatistics_spec (tasksWith 40 23) (by decide!)).2.2.2.2.1⟩

/-! ## More lemmas on `JSMap` -/

namespace JSMap

variable {α : Type}

theorem has_eq_isSome_get (m : JSMap α) (k : String) : m.has k = (m.get k).isSome := by
  simp only [has, get, Option.isSome_map']
  induction m.entries with
  | nil => rfl
  | cons e rest ih =>
    by_cases h : e.1 = k
    · simp [h]
    · simp [h, ih]

theorem find_setEntries_self (k : String) (v : α) (l : List (String × α)) :
    (setEntries k v l).find? (fun e => e.1 == k) = some (k, v) := by
  induction l with
  | nil => simp [setEntries]
  | cons e rest ih =>
    unfold setEntries
    by_cases h : e.1 = k
    · simp [h]
    · simp [h, ih]

theorem find_setEntries_other (k k' : String) (v : α) (l : List (String × α)) (h : k' ≠ k) :
    (setEntries k v l).find? (fun e => e.1 == k') = l.find? (fun e => e.1 == k') := by
  have hk : (k == k') = false := by simpa using fun h' : k = k' => h h'.symm
  induction l with
  | nil => simp [setEntries, hk]
  | cons e rest ih =>
    unfold setEntries
    split
    · rename_i he
      have h2 : (e.1 == k') = false := by simpa using fun h' : e.1 = k' => h (h'.symm.trans he)
      simp only [List.find?_cons, hk, h2]
    · simp only [List.find?_cons, ih]

theorem get_set_self (m : JSMap α) (k : String) (v : α) : (m.set k v).get k = some v := by
  simp [get, set, find_setEntries_self]

theorem get_set_other (m : JSMap α) (k k' : String) (v : α) (h : k' ≠ k) :
    (m.set k v).get k' = m.get k' := by
  simp [get, set, find_setEntries_other k k' v m.entries h]

theorem setEntries_of_absent (k : String) (v : α) (l : List (String × α))
    (h : ∀ e ∈ l, e.1 ≠ k) : setEntries k v l = l ++ [(k, v)] := by
  induction l with
  | nil => rfl
  | cons e rest ih =>
    unfold setEntries
    rw [if_neg (h e (List.mem_cons_self _ _)),
      ih (fun e' he' => h e' (List.mem_cons_of_mem _ he'))]
    rfl

theorem get_delete_self (m : JSMap α) (k : String) : (m.delete k).2.get k = none := by
  rw [get_eq_none_iff]
  intro e he
  simp only [delete, List.mem_filter] at he
  simpa using he.2

theorem get_delete_other (m : JSMap α) (k k' : String) (h : k' ≠ k) :
    (m.delete k).2.get k' = m.get k' := by
  simp only [get, delete]
  congr 1
  induction m.entries with
  | nil => rfl
  | cons e rest ih =>
    by_cases he : e.1 = k
    · have h1 : (e.1 != k) = false := by simp [he]
      have h2 : (e.1 == k') = false := by simpa using fun h' : e.1 = k' => h (h'.symm.trans he)
      simp only [List.filter_cons, h1, List.find?_cons, h2]
      rw [if_neg (by decide), ih]
    · have h1 : (e.1 != k) = true := by simp [he]
      simp only [List.filter_cons, h1, List.find?_cons, ih, if_true]

theorem length_filter_key (k : String) (l : List (String × α))
    (hnodup : (l.map (fun e => e.1)).Nodup) (hmem : ∃ e ∈ l, e.1 = k) :
    (l.filter (fun e => e.1 != k)).length + 1 = l.length := by
  induction l with
  | nil => simp at hmem
  | cons e rest ih =>
    simp only [List.map_cons, List.nodup_cons] at hnodup
    by_cases he : e.1 = k
    · have hrest : rest.filter (fun e => e.1 != k) = rest := by
        rw [List.filter_eq_self]
        intro a ha
        have : a.1 ≠ k := by
          intro hak
          exact hnodup.1 (List.mem_map.2 ⟨a, ha, hak.trans he.symm⟩)
        simpa using this
      simp [List.filter_cons, he, hrest]
    · obtain ⟨a, ha, hak⟩ := hmem
      have hmem' : ∃ a ∈ rest, a.1 = k := by
        rcases List.mem_cons.1 ha with rfl | ha
        · exact absurd hak he
        · exact ⟨a, ha, hak⟩
      simp [List.filter_cons, he, ih hnodup.2 hmem']

theorem mutateEntries_of_absent (k : String) (f : α → α) (l : List (String × α))
    (h : ∀ e ∈ l, e.1 ≠ k) : mutateEntries k f l = l := by
  induction l with
  | nil => rfl
  | cons e rest ih =>
    unfold mutateEntries
    rw [if_neg (h e (List.mem_cons_self _ _)),
      ih (fun e' he' => h e' (List.mem_cons_of_mem _ he'))]

end JSMap

/-! ## The bootstrap insertion -/

theorem insertMissing_cons (clock : Nat → Int) (data : TaskData) (rest : List TaskData)
    (i : Nat) (tasks : JSMap Task) :
    TaskManager.insertMissing clock i (data :: rest) tasks =
      TaskManager.insertMissing clock (i + 1) rest
        (if !tasks.has data.id then tasks.set data.id (Task.fromJSON (clock i) data)
          else tasks) :=
  rfl

theorem insertMissing_preserves (clock : Nat → Int) (records : List TaskData) (i : Nat)
    (tasks : JSMap Task) (k : String) (t : Task) (h : tasks.get k = some t) :
    (TaskManager.insertMissing clock i records tasks).get k = some t := by
  induction records generalizing i tasks with
  | nil => exact h
  | cons data rest ih =>
    rw [insertMissing_cons]
    apply ih
    split
    · rename_i hhas
      have hne : k ≠ data.id := by
        rintro rfl
        rw [JSMap.has_eq_isSome_get, h] at hhas
        simp at hhas
      rw [JSMap.get_set_other _ _ _ _ hne, h]
    · exact h

theorem insertMissing_other (clock : Nat → Int) (records : List TaskData) (i : Nat)
    (tasks : JSMap Task) (k : String) (h : ∀ data ∈ records, data.id ≠ k) :
    (TaskManager.insertMissing clock i records tasks).get k = tasks.get k := by
  induction records generalizing i tasks with
  | nil => rfl
  | cons data rest ih =>
    rw [insertMissing_cons, ih _ _ (fun d hd => h d (List.mem_cons_of_mem _ hd))]
    split
    · exact JSMap.get_set_other _ _ _ _ (fun hk => h data (List.mem_cons_self _ _) hk.symm)
    · rfl

theorem insertMissing_has (clock : Nat → Int) (records : List TaskData) (i : Nat)
    (tasks : JSMap Task) (data : TaskData) (h : data ∈ records) :
    (TaskManager.insertMissing clock i records tasks).has data.id = true := by
  induction records generalizing i tasks with
  | nil => simp at h
  | cons d rest ih =>
    rw [insertMissing_cons]
    rcases List.mem_cons.1 h with rfl | h
    · have hstep : ∃ t, (if !tasks.has data.id then
          tasks.set data.id (Task.fromJSON (clock i) data) else tasks).get data.id = some t := by
        split
        · exact ⟨_, JSMap.get_set_self _ _ _⟩
        · rename_i hhas
          cases hg : tasks.get data.id with
          | none =>
            rw [JSMap.has_eq_isSome_get, hg] at hhas
            simp at hhas
          | some t0 => exact ⟨t0, rfl⟩
      obtain ⟨t, ht⟩ := hstep
      rw [JSMap.has_eq_isSome_get, insertMissing_preserves clock rest (i + 1) _ data.id t ht]
      rfl
    · exact ih _ _ h

theorem insertMissing_of_has (clock : Nat → Int) (records : List TaskData) (i : Nat)
    (tasks : JSMap Task) (h : ∀ data ∈ records, tasks.has data.id = true) :
    TaskManager.insertMissing clock i records tasks = tasks := by
  induction records generalizing i with
  | nil => rfl
  | cons d rest ih =>
    rw [insertMissing_cons, h d (List.mem_cons_self _ _)]
    exact ih _ (fun d' hd' => h d' (List.mem_cons_of_mem _ hd'))

theorem insertMissing_inserted (clock : Nat → Int) (pre post : List TaskData)
    (data : TaskData) (i : Nat) (tasks : JSMap Task) (hnone : tasks.get data.id = none)
    (hpre : ∀ d ∈ pre, d.id ≠ data.id) :
    (TaskManager.insertMissing clock i (pre ++ data :: post) tasks).get data.id =
      some (Task.fromJSON (clock (i + pre.length)) data) := by
  induction pre generalizing i tasks with
  | nil =>
    have hno : tasks.has data.id = false := by
      rw [JSMap.has_eq_isSome_get, hnone]
      rfl
    rw [List.nil_append, insertMissing_cons]
    apply insertMissing_preserves
    rw [hno]
    exact JSMap.get_set_self _ _ _
  | cons d pre ih =>
    have hne : data.id ≠ d.id := fun h => hpre d (List.mem_cons_self _ _) h.symm
    have hlen : i + (d :: pre).length = i + 1 + pre.length := by
      simp only [List.length_cons]
      omega
    rw [List.cons_append, insertMissing_cons, hlen]
    apply ih
    · split
      · rw [JSMap.get_set_other _ _ _ _ hne, hnone]
      · exact hnone
    · exact fun d' hd' => hpre d' (List.mem_cons_of_mem _ hd')

theorem mockTasks_shape (clock : Nat → Int) :
    ∃ d1 d2, TaskManager.mockTasks clock = [d1, d2] ∧ d1.id = "api-1" ∧ d2.id = "api-2" ∧
      ∀ d, d = d1 ∨ d = d2 →
        d.createdBy = Val.str "system" ∧ d.assignedTo = Val.str "all" ∧
        d.completed = Val.bool false ∧ d.completedAt = none := by
  refine ⟨_, _, rfl, rfl, rfl, ?_⟩
  rintro d (rfl | rfl)
  · exact ⟨rfl, rfl, rfl, rfl⟩
  · exact ⟨rfl, rfl, rfl, rfl⟩

/-- The task that the bootstrap step stores under a missing id is the fixed
record of that id. -/
theorem bootstrap_inserted (tm : TaskManager) (clock : Nat → Int) (k : String)
    (hk : k = "api-1" ∨ k = "api-2") (h : tm.getTask k = none) :
    ∃ t, (tm.loadInitialTasksFromAPI clock).1.getTask k = some t ∧
      t.id = k ∧ t.createdBy = Val.str "system" ∧ t.assignedTo = Val.str "all" ∧
      t.completed = Val.bool false ∧ t.completedAt = Val.null := by
  obtain ⟨d1, d2, hm, h1, h2, hfields⟩ := mockTasks_shape clock
  simp only [TaskManager.getTask, loadInitialTasksFromAPI_tasks, hm]
  simp only [TaskManager.getTask] at h
  rcases hk with rfl | rfl
  · obtain ⟨f1, f2, f3, f4⟩ := hfields d1 (Or.inl rfl)
    refine ⟨Task.fromJSON (clock (4 + ([] : List TaskData).length)) d1, ?_, h1, f1, f2, f3, ?_⟩
    · rw [← h1] at h ⊢
      exact insertMissing_inserted clock [] [d2] d1 4 tm.tasks h (by simp)
    · simp [Task.fromJSON, f4, Task.dateOrNull]
  · obtain ⟨f1, f2, f3, f4⟩ := hfields d2 (Or.inr rfl)
    refine ⟨Task.fromJSON (clock (4 + [d1].length)) d2, ?_, h2, f1, f2, f3, ?_⟩
    · rw [← h2] at h ⊢
      exact insertMissing_inserted clock [d1] [] d2 4 tm.tasks h
        (by simp [h1, h2])
    · simp [Task.fromJSON, f4, Task.dateOrNull]

/-- C11. After the bootstrap step the keys `"api-1"` and `"api-2"` are present,
holding the fixed records when they were missing; every task that was stored
before, under these or any other id, is stored as it was; no other id is added;
a second bootstrap step leaves the collection as the first one left it. -/
theorem bootstrap_idempotent (tm : TaskManager) (clock clock' : Nat → Int) :
    (∀ k, k = "api-1" ∨ k = "api-2" →
      ∃ t, (tm.loadInitialTasksFromAPI clock).1.getTask k = some t ∧
        (tm.getTask k = none →
          t.id = k ∧ t.createdBy = Val.str "system" ∧ t.assignedTo = Val.str "all" ∧
          t.completed = Val.bool false ∧ t.completedAt = Val.null)) ∧
    (∀ k t, tm.getTask k = some t → (tm.loadInitialTasksFromAPI clock).1.getTask k = some t) ∧
    (∀ k, k ≠ "api-1" → k ≠ "api-2" →
      (tm.loadInitialTasksFromAPI clock).1.getTask k = tm.getTask k) ∧
    ((tm.loadInitialTasksFromAPI clock).1.loadInitialTasksFromAPI clock').1.tasks =
      (tm.loadInitialTasksFromAPI clock).1.tasks := by
  have hpres : ∀ k t, tm.getTask k = some t →
      (tm.loadInitialTasksFromAPI clock).1.getTask k = some t := by
    intro k t h
    simp only [TaskManager.getTask, loadInitialTasksFromAPI_tasks]
    exact insertMissing_preserves _ _ _ _ _ _ h
  have hhas : ∀ data ∈ TaskManager.mockTasks clock,
      (tm.loadInitialTasksFromAPI clock).1.tasks.has data.id = true := by
    intro data hdata
    rw [loadInitialTasksFromAPI_tasks]
    exact insertMissing_has _ _ _ _ _ hdata
  refine ⟨?_, hpres, ?_, ?_⟩
  · intro k hk
    cases h : tm.getTask k with
    | some t => exact ⟨t, hpres _ _ h, fun h' => by cases h'⟩
    | none =>
      obtain ⟨t, ht, hrest⟩ := bootstrap_inserted tm clock k hk h
      exact ⟨t, ht, fun _ => hrest⟩
  · intro k h1 h2
    simp only [TaskManager.getTask, loadInitialTasksFromAPI_tasks]
    apply insertMissing_other
    intro data hdata
    simp only [TaskManager.mockTasks, List.mem_cons, List.mem_singleton, List.not_mem_nil,
      or_false] at hdata
    rcases hdata with rfl | rfl
    · exact fun h => h1 h.symm
    · exact fun h => h2 h.symm
  · rw [loadInitialTasksFromAPI_tasks]
    apply insertMissing_of_has
    intro data hdata
    have hid : ∃ d ∈ TaskManager.mockTasks clock, d.id = data.id := by
      simp only [TaskManager.mockTasks, List.mem_cons, List.mem_singleton, List.not_mem_nil,
        or_false] at hdata ⊢
      rcases hdata with rfl | rfl
      · exact ⟨_, Or.inl rfl, rfl⟩
      · exact ⟨_, Or.inr rfl, rfl⟩
    obtain ⟨d, hd, hid⟩ := hid
    rw [← hid]
    exact hhas d hd

/-- Witness of C11: the task of the sample collection is still stored as it was
after the bootstrap step, and `"api-1"` is present. -/
theorem bootstrap_idempotent_witness :
    sampleTasks.getTask "t1" = some sampleTask ∧
    (sampleTasks.loadInitialTasksFromAPI (fun _ => 7000)).1.getTask "t1" = some sampleTask ∧
    ∃ t, (sampleTasks.loadInitialTasksFromAPI (fun _ => 7000)).1.getTask "api-1" = some t ∧
      (sampleTasks.getTask "api-1" = none →
        t.id = "api-1" ∧ t.createdBy = Val.str "system" ∧ t.assignedTo = Val.str "all" ∧
        t.completed = Val.bool false ∧ t.completedAt = Val.null) :=
  ⟨by decide,
    (bootstrap_idempotent sampleTasks (fun _ => 7000) (fun _ => 8000)).2.1 "t1" sampleTask
      (by decide),
    (bootstrap_idempotent sampleTasks (fun _ => 7000) (fun _ => 8000)).1 "api-1" (Or.inl rfl)⟩

/-! ## Completing through the entity and through `updateTask` -/

theorem updateTask_getTask (tm : TaskManager) (id : String) (updates : List (String × Val))
    (task : Task) (h : tm.getTask id = some task) :
    (tm.updateTask id updates).1.getTask id = some (applyUpdates updates task) := by
  unfold TaskManager.updateTask
  rw [h]
  simp only [TaskManager.getTask, saveThen_tasks, JSMap.get_mutate]
  rw [show tm.tasks.get id = some task from h]
  rfl

theorem applyUpdates_complete (t : Task) (now : Int) :
    applyUpdates [("completed", Val.bool true), ("completedAt", Val.date now)] t =
      t.complete now := by
  simp [applyUpdates, applyKey, Task.hasProperty, taskDataFields, Task.assign, readKey,
    List.lookup, Task.complete]

theorem applyUpdates_uncomplete (t : Task) :
    applyUpdates [("completed", Val.bool false), ("completedAt", Val.null)] t =
      t.uncomplete := by
  simp [applyUpdates, applyKey, Task.hasProperty, taskDataFields, Task.assign, readKey,
    List.lookup, Task.uncomplete]

theorem mutate_of_get_eq_none {α : Type} (m : JSMap α) (k : String) (f : α → α)
    (h : m.get k = none) : m.mutate k f = m := by
  cases m with
  | mk entries =>
    simp only [JSMap.mutate]
    rw [JSMap.mutateEntries_of_absent k f entries (JSMap.get_eq_none_iff.1 h)]

theorem updateTask_tasks_eq (tm : TaskManager) (id : String) (updates : List (String × Val)) :
    (tm.updateTask id updates).1.tasks = tm.tasks.mutate id (applyUpdates updates) := by
  unfold TaskManager.updateTask
  split
  · rename_i h
    exact (mutate_of_get_eq_none _ _ _ h).symm
  · simp only [saveThen_tasks]

/-- C12. For a task `t` stored under its id, `completeTask` (that is `updateTask`
with `{completed: true, completedAt: now}`) leaves under that id the task that
the method `complete` produces at time `now`, and `uncompleteTask` the task that
`uncomplete` produces; the whole collection is the one obtained by calling the
method on the stored task. After completing, `completed` is `true` and
`completedAt` is `now`; after uncompleting, `completed` is `false` and
`completedAt` is `null`; no other field changes. The calls `t.complete()` and
`t.uncomplete()` run these methods on a task whose methods are those of the class. -/
theorem complete_agrees_with_updateTask (tm : TaskManager) (t : Task) (now : Int)
    (h : tm.getTask t.id = some t) :
    (TaskApp.completeTask tm t.id now).1.getTask t.id = some (t.complete now) ∧
    (TaskApp.completeTask tm t.id now).1.tasks = tm.tasks.mutate t.id (Task.complete now) ∧
    t.complete now = { t with completed := Val.bool true, completedAt := Val.date now } ∧
    (TaskApp.uncompleteTask tm t.id).1.getTask t.id = some t.uncomplete ∧
    (TaskApp.uncompleteTask tm t.id).1.tasks = tm.tasks.mutate t.id Task.uncomplete ∧
    t.uncomplete = { t with completed := Val.bool false, completedAt := Val.null } ∧
    (t.proto = Proto.taskPrototype → t.shadow = [] →
      t.callComplete now = .ok (t.complete now) ∧ t.callUncomplete = .ok t.uncomplete) := by
  have e1 : applyUpdates [("completed", Val.bool true), ("completedAt", Val.date now)] =
      Task.complete now := funext fun t => applyUpdates_complete t now
  have e2 : applyUpdates [("completed", Val.bool false), ("completedAt", Val.null)] =
      Task.uncomplete := funext applyUpdates_uncomplete
  refine ⟨?_, ?_, rfl, ?_, ?_, rfl, ?_⟩
  · rw [TaskApp.completeTask, updateTask_getTask tm _ _ t h, applyUpdates_complete]
  · rw [TaskApp.completeTask, updateTask_tasks_eq, e1]
  · rw [TaskApp.uncompleteTask, updateTask_getTask tm _ _ t h, applyUpdates_uncomplete]
  · rw [TaskApp.uncompleteTask, updateTask_tasks_eq, e2]
  · intro hp hs
    simp [Task.callComplete, Task.callUncomplete, hp, hs]

/-- Witness of C12: the task of the sample collection. -/
theorem complete_agrees_with_updateTask_witness :
    sampleTasks.getTask sampleTask.id = some sampleTask ∧
    (TaskApp.completeTask sampleTasks sampleTask.id 6000).1.getTask sampleTask.id =
      some (sampleTask.complete 6000) ∧
    (TaskApp.uncompleteTask sampleTasks sampleTask.id).1.getTask sampleTask.id =
      some sampleTask.uncomplete :=
  ⟨by decide,
    (complete_agrees_with_updateTask sampleTasks sampleTask 6000 (by decide)).1,
    (complete_agrees_with_updateTask sampleTasks sampleTask 6000 (by decide)).2.2.2.1⟩

/-! ## Filtering by status -/

/-- C13. With `userId = "all"`, `getFilteredTasks("completed", "all")` is the list
of all tasks filtered by the test `task.completed`, `getFilteredTasks("pending",
"all")` the list filtered by `!task.completed`, and `getFilteredTasks("all",
"all")` the list of all tasks, each in the order of `getAllTasks`. When every
`completed` flag is a boolean, these are the tasks whose flag is `true` and the
tasks whose flag is `false`. -/
theorem getFilteredTasks_by_status (tm : TaskManager) :
    tm.getFilteredTasks "completed" "all" =
      tm.getAllTasks.filter (fun task => task.completed.truthy) ∧
    tm.getFilteredTasks "pending" "all" =
      tm.getAllTasks.filter (fun task => !task.completed.truthy) ∧
    tm.getFilteredTasks "all" "all" = tm.getAllTasks ∧
    ((∀ task ∈ tm.getAllTasks,
        task.completed = Val.bool true ∨ task.completed = Val.bool false) →
      tm.getFilteredTasks "completed" "all" =
        tm.getAllTasks.filter (fun task => task.completed == Val.bool true) ∧
      tm.getFilteredTasks "pending" "all" =
        tm.getAllTasks.filter (fun task => task.completed == Val.bool false)) := by
  have h1 : tm.getFilteredTasks "completed" "all" =
      tm.getAllTasks.filter (fun task => task.completed.truthy) := by
    unfold TaskManager.getFilteredTasks
    congr 1
    funext task
    simp
  have h2 : tm.getFilteredTasks "pending" "all" =
      tm.getAllTasks.filter (fun task => !task.completed.truthy) := by
    unfold TaskManager.getFilteredTasks
    congr 1
    funext task
    simp
  refine ⟨h1, h2, ?_, ?_⟩
  · unfold TaskManager.getFilteredTasks
    simp
  · intro hbool
    rw [h1, h2]
    constructor
    · apply List.filter_congr
      intro task htask
      rcases hbool task htask with h | h <;> simp [h, Val.truthy]
    · apply List.filter_congr
      intro task htask
      rcases hbool task htask with h | h <;> simp [h, Val.truthy]

/-- Witness of C13: the flags of the sample collection with two tasks are
booleans. -/
theorem getFilteredTasks_by_status_witness :
    (∀ task ∈ twoTasks.getAllTasks,
      task.completed = Val.bool true ∨ task.completed = Val.bool false) ∧
    twoTasks.getFilteredTasks "completed" "all" =
      twoTasks.getAllTasks.filter (fun task => task.completed == Val.bool true) ∧
    twoTasks.getFilteredTasks "pending" "all" =
      twoTasks.getAllTasks.filter (fun task => task.completed == Val.bool false) :=
  ⟨by decide, (getFilteredTasks_by_status twoTasks).2.2.2 (by decide)⟩

/-- C14. The two filters are conjunctive: for every status and every user id, a
task is in `getFilteredTasks(status, userId)` exactly when it is in both
`getFilteredTasks(status, "all")` and `getFilteredTasks("all", userId)`. -/
theorem getFilteredTasks_conjunctive (tm : TaskManager) (status userId : String) (task : Task) :
    task ∈ tm.getFilteredTasks status userId ↔
      task ∈ tm.getFilteredTasks status "all" ∧ task ∈ tm.getFilteredTasks "all" userId := by
  unfold TaskManager.getFilteredTasks
  simp only [List.mem_filter]
  constructor
  · rintro ⟨hmem, h⟩
    simp only [Bool.and_eq_true] at h
    exact ⟨⟨hmem, by simpa using h.1⟩, ⟨hmem, by simpa using h.2⟩⟩
  · rintro ⟨⟨hmem, h1⟩, ⟨_, h2⟩⟩
    refine ⟨hmem, ?_⟩
    simp only [Bool.and_eq_true]
    exact ⟨by simpa using h1, by simpa using h2⟩

/-! ## Sessions: `logout`, `login`, `register` -/

/-- C15. After `logout()`, in whatever state it was called, `getCurrentUser()`
yields `null`, the key `currentUser` is not in `localStorage`, and the user
collection is the one before the call. -/
theorem logout_clears_session (am : AuthManager) :
    am.logout.getCurrentUser = none ∧
    am.logout.storage.currentUser = none ∧
    am.logout.users = am.users ∧
    am.logout.getAllUsers = am.getAllUsers :=
  ⟨rfl, rfl, rfl, rfl⟩

/-- C16. When `login(email, password)` returns a user, that user is a user of
the collection with that email and password; afterwards `getCurrentUser()` is
the record `toJSON()` of that user (so the ids agree), the persisted
`currentUser` is the same record, and the user collection is unchanged. -/
theorem login_sets_session (am : AuthManager) (email password : String) (user : User)
    (h : (am.login email password).2 = .ok user) :
    user ∈ am.getAllUsers ∧ user.email = email ∧ user.password = password ∧
    (am.login email password).1.getCurrentUser = some user.toJSON ∧
    user.toJSON = { id := user.id, name := user.name, email := user.email,
                    password := user.password, createdAt := user.createdAt } ∧
    (∃ snapshot, (am.login email password).1.getCurrentUser = some snapshot ∧
      snapshot.id = user.id) ∧
    (am.login email password).1.storage.currentUser = some user.toJSON ∧
    (am.login email password).1.users = am.users := by
  unfold AuthManager.login at h ⊢
  split at h
  · cases h
  · rename_i found hfound
    have hmem : found ∈ am.users.values := List.mem_of_find?_eq_some hfound
    have hemail : found.email = email := by simpa using List.find?_some hfound
    by_cases hpw : found.verifyPassword password = true
    · have hif : ¬ (!found.verifyPassword password) = true := by simp [hpw]
      have hpw' : found.password = password := by simpa [User.verifyPassword] using hpw
      rw [if_neg hif] at h ⊢
      cases h
      exact ⟨hmem, hemail, hpw', rfl, rfl, ⟨_, rfl, rfl⟩, rfl, rfl⟩
    · have hif : (!found.verifyPassword password) = true := by simpa using hpw
      rw [if_pos hif] at h
      cases h

/-- Witness of C16: the first sample user logs in again. -/
theorem login_sets_session_witness :
    (sampleAuth.login "ana@example.com" "secret").2 =
      .ok (User.new 1000 "u1" "Ana" "ana@example.com" "secret") ∧
    (sampleAuth.login "ana@example.com" "secret").1.getCurrentUser =
      some (User.new 1000 "u1" "Ana" "ana@example.com" "secret").toJSON :=
  ⟨rfl, (login_sets_session sampleAuth "ana@example.com" "secret"
    (User.new 1000 "u1" "Ana" "ana@example.com" "secret") rfl).2.2.2.1⟩

/-- C19. A `login` that throws leaves the whole state as it was: the user
collection, the current session and `localStorage` with its count of writes. -/
theorem login_failure_atomic (am : AuthManager) (email password : String) (e : JSError)
    (h : (am.login email password).2 = .error e) :
    (am.login email password).1 = am ∧
    e = JSError.error "Credenciales incorrectas" := by
  unfold AuthManager.login at h ⊢
  split at h
  · cases h
    exact ⟨rfl, rfl⟩
  · rename_i found hfound
    by_cases hpw : found.verifyPassword password = true
    · have hif : ¬ (!found.verifyPassword password) = true := by simp [hpw]
      rw [if_neg hif] at h
      cases h
    · have hif : (!found.verifyPassword password) = true := by simpa using hpw
      rw [if_pos hif] at h ⊢
      cases h
      exact ⟨rfl, rfl⟩

/-- Witness of C19: a wrong password while the first sample user is logged in. -/
theorem login_failure_atomic_witness :
    (sampleAuth.login "ana@example.com" "wrong").2 =
      .error (JSError.error "Credenciales incorrectas") ∧
    (sampleAuth.login "ana@example.com" "wrong").1 = sampleAuth ∧
    sampleAuth.getCurrentUser =
      some (User.new 1000 "u1" "Ana" "ana@example.com" "secret").toJSON :=
  ⟨rfl, (login_failure_atomic sampleAuth "ana@example.com" "wrong" _ rfl).1, rfl⟩

theorem values_set_of_absent {α : Type} (m : JSMap α) (k : String) (v : α)
    (h : m.has k = false) : (m.set k v).values = m.values ++ [v] := by
  have habs : ∀ e ∈ m.entries, e.1 ≠ k := by
    rw [JSMap.has_eq_isSome_get] at h
    apply JSMap.get_eq_none_iff.1
    cases hg : m.get k with
    | none => rfl
    | some a =>
      rw [hg] at h
      cases h
  simp [JSMap.values, JSMap.set, JSMap.setEntries_of_absent k v m.entries habs]

theorem saveToStorage_storage_users (am : AuthManager) :
    am.saveToStorage.storage.users = some (am.users.values.map User.toJSON) := by
  unfold AuthManager.saveToStorage
  split <;> rfl

/-- C20. When no stored user has the email and the generated id is not yet a
key, `register` returns a user with that id, name, email and password, created
at the time of the call; afterwards the collection is the previous users, each
as it was, followed by the new user, the persisted `users` record is the
serialisation of that collection, and the current session is what it was. -/
theorem register_success (am : AuthManager) (id : String) (now : Int)
    (name email password : String)
    (hemail : ∀ u ∈ am.getAllUsers, u.email ≠ email) (hid : am.users.has id = false) :
    (am.register id now name email password).2 =
      .ok { id := id, name := name, email := email, password := password, createdAt := now } ∧
    (am.register id now name email password).1.getAllUsers =
      am.getAllUsers ++
        [{ id := id, name := name, email := email, password := password, createdAt := now }] ∧
    (am.register id now name email password).1.users.get id =
      some { id := id, name := name, email := email, password := password, createdAt := now } ∧
    (∀ k u, am.users.get k = some u →
      (am.register id now name email password).1.users.get k = some u) ∧
    (am.register id now name email password).1.storage.users =
      some ((am.register id now name email password).1.getAllUsers.map User.toJSON) ∧
    (am.register id now name email password).1.getCurrentUser = am.getCurrentUser := by
  have hfind : ¬ (am.users.values.find? (fun user => user.email == email)).isSome = true := by
    rw [find_email_isSome_iff]
    rintro ⟨u, hu, he⟩
    exact hemail u hu he
  have hreg : am.register id now name email password =
      (AuthManager.saveToStorage
          { am with users := am.users.set id (User.new now id name email password) },
        .ok (User.new now id name email password)) := by
    unfold AuthManager.register
    rw [if_neg hfind]
  rw [hreg]
  refine ⟨rfl, ?_, ?_, ?_, ?_, ?_⟩
  · simp only [AuthManager.getAllUsers, saveToStorage_users]
    exact values_set_of_absent _ _ _ hid
  · simp only [saveToStorage_users]
    exact JSMap.get_set_self _ _ _
  · intro k u hk
    have hne : k ≠ id := by
      rintro rfl
      rw [JSMap.has_eq_isSome_get, hk] at hid
      cases hid
    simp only [saveToStorage_users]
    rw [JSMap.get_set_other _ _ _ _ hne, hk]
  · simp only [AuthManager.getAllUsers, saveToStorage_users]
    exact saveToStorage_storage_users _
  · simp only [AuthManager.getCurrentUser, saveToStorage_currentUser]

/-- Witness of C20: a third user registers in the sample state. -/
theorem register_success_witness :
    (∀ u ∈ sampleAuth.getAllUsers, u.email ≠ "eva@example.com") ∧
    sampleAuth.users.has "u3" = false ∧
    (sampleAuth.register "u3" 3000 "Eva" "eva@example.com" "pw").2 =
      .ok { id := "u3", name := "Eva", email := "eva@example.com", password := "pw",
            createdAt := 3000 } :=
  ⟨by decide, by decide,
    (register_success sampleAuth "u3" 3000 "Eva" "eva@example.com" "pw" (by decide)
      (by decide)).1⟩

/-! ## `updateTask` and `deleteTask` on present and absent ids -/

/-- C17. For an id that is not in the collection, `updateTask(id, updates)` returns
`undefined` without throwing and leaves the whole state as it was (the same
collection, the same persisted records, the same number of writes); `getTask(id)`
is `undefined` before and after. -/
theorem updateTask_absent (tm : TaskManager) (id : String) (updates : List (String × Val))
    (h : tm.getTask id = none) :
    tm.updateTask id updates = (tm, .ok none) ∧
    (tm.updateTask id updates).1.getTask id = none := by
  have h1 : tm.updateTask id updates = (tm, .ok none) := by
    unfold TaskManager.updateTask
    rw [h]
  exact ⟨h1, by rw [h1]; exact h⟩

/-- Witness of C17: an id that the sample collection does not hold. -/
theorem updateTask_absent_witness :
    sampleTasks.getTask "nope" = none ∧
    sampleTasks.updateTask "nope" [("title", Val.str "x")] = (sampleTasks, .ok none) :=
  ⟨by decide, (updateTask_absent sampleTasks "nope" [("title", Val.str "x")] (by decide)).1⟩

theorem callToJSON_of_serialisable (t : Task) (h : t.serialisable) :
    ∃ data, t.callToJSON = .ok data := by
  obtain ⟨hp, hs, hd, hc⟩ := h
  have iso : ∀ v : Val, ((∃ ms, v = Val.date ms) ∨ v.truthy = false) →
      ∃ o, Task.isoOrNull v = .ok o := by
    rintro v (⟨ms, rfl⟩ | hv)
    · exact ⟨some ms, rfl⟩
    · cases v <;> simp_all [Task.isoOrNull, Val.truthy]
  obtain ⟨d, hd'⟩ := iso _ hd
  obtain ⟨c, hc'⟩ := iso _ hc
  refine ⟨{ id := t.id, title := t.title, description := t.description,
            createdBy := t.createdBy, assignedTo := t.assignedTo, deadline := d,
            createdAt := t.createdAt, completed := t.completed, completedAt := c }, ?_⟩
  simp only [Task.callToJSON, hp, hs, Task.toJSON, hd', hc']
  rfl

theorem mapM_callToJSON (tasks : List Task) (h : ∀ t ∈ tasks, t.serialisable) :
    ∃ records, tasks.mapM Task.callToJSON = .ok records ∧ records.length = tasks.length := by
  induction tasks with
  | nil => exact ⟨[], rfl, rfl⟩
  | cons t rest ih =>
    obtain ⟨d, hd⟩ := callToJSON_of_serialisable t (h t (List.mem_cons_self _ _))
    obtain ⟨ds, hds, hlen⟩ := ih (fun u hu => h u (List.mem_cons_of_mem _ hu))
    refine ⟨d :: ds, ?_, by simp [hlen]⟩
    rw [List.mapM_cons, hd, hds]
    rfl

theorem saveThen_of_mapM {ρ : Type} (tm : TaskManager) (result : ρ) (records : List TaskData)
    (h : tm.tasks.values.mapM Task.callToJSON = .ok records) :
    tm.saveThen result =
      ({ tasks := tm.tasks, storage := tm.storage.setTasks records }, .ok result) := by
  simp only [TaskManager.saveThen, TaskManager.saveToStorage, h]

/-- The method `deleteTask` where `toJSON` returns on every remaining task: for
an id present, `deleteTask(id)` returns `true`; afterwards `getTask(id)` is
`undefined`, every other id yields the task it yielded before, there is exactly
one task fewer, and the persisted `tasks` record is the serialisation of the
remaining tasks, written once. Without the condition on the remaining tasks the
call can throw, as it does on `shadowedTwoTasks`. -/
theorem deleteTask_present (tm : TaskManager) (id : String) (t : Task)
    (hkeys : tm.tasks.distinctKeys) (h : tm.getTask id = some t)
    (hser : ∀ u ∈ (tm.tasks.delete id).2.values, u.serialisable) :
    ∃ records,
      (tm.tasks.delete id).2.values.mapM Task.callToJSON = .ok records ∧
      tm.deleteTask id =
        ({ tasks := (tm.tasks.delete id).2, storage := tm.storage.setTasks records },
          .ok true) ∧
      (tm.deleteTask id).1.storage.tasks = some records ∧
      (tm.deleteTask id).1.getTask id = none ∧
      (∀ k, k ≠ id → (tm.deleteTask id).1.getTask k = tm.getTask k) ∧
      (tm.deleteTask id).1.getAllTasks.length + 1 = tm.getAllTasks.length := by
  obtain ⟨records, hrec, _⟩ := mapM_callToJSON _ hser
  have hhas : tm.tasks.has id = true := by
    rw [JSMap.has_eq_isSome_get, show tm.tasks.get id = some t from h]
    rfl
  have hdel : tm.deleteTask id =
      ({ tasks := (tm.tasks.delete id).2, storage := tm.storage.setTasks records },
        .ok true) := by
    unfold TaskManager.deleteTask
    have hd : tm.tasks.delete id = (true, (tm.tasks.delete id).2) := by
      simp [JSMap.delete, hhas]
    rw [hd]
    simp only [if_true]
    exact saveThen_of_mapM _ _ _ hrec
  refine ⟨records, hrec, hdel, ?_, ?_, ?_, ?_⟩
  · rw [hdel]
    rfl
  · rw [hdel]
    exact JSMap.get_delete_self _ _
  · intro k hk
    rw [hdel]
    exact JSMap.get_delete_other _ _ _ hk
  · rw [hdel]
    simp only [TaskManager.getAllTasks, JSMap.values, JSMap.delete, List.length_map]
    apply JSMap.length_filter_key _ _ hkeys
    simp only [TaskManager.getTask, JSMap.get, Option.map_eq_some'] at h
    obtain ⟨e, he, _⟩ := h
    exact ⟨e, List.mem_of_find?_eq_some he, by simpa using List.find?_some he⟩

/-- An instance of `deleteTask_present`: deleting the first of the two sample
tasks. -/
theorem deleteTask_present_witness :
    twoTasks.tasks.distinctKeys ∧ twoTasks.getTask "t1" = some sampleTask ∧
    (∀ u ∈ (twoTasks.tasks.delete "t1").2.values, u.serialisable) ∧
    (twoTasks.deleteTask "t1").2 = .ok true ∧
    (twoTasks.deleteTask "t1").1.getAllTasks.length + 1 = twoTasks.getAllTasks.length := by
  have hkeys : twoTasks.tasks.distinctKeys := by
    unfold JSMap.distinctKeys
    decide
  have hget : twoTasks.getTask "t1" = some sampleTask := by decide
  have hser : ∀ u ∈ (twoTasks.tasks.delete "t1").2.values, u.serialisable := by
    intro u hu
    have : u = Task.new 5500 "t2" (Val.str "Regar") (Val.str "plantas") (Val.str "u2")
        (Val.str "u1") (Val.date 9000) := by
      have hv : (twoTasks.tasks.delete "t1").2.values =
          [Task.new 5500 "t2" (Val.str "Regar") (Val.str "plantas") (Val.str "u2")
            (Val.str "u1") (Val.date 9000)] := by decide
      rw [hv] at hu
      simpa using hu
    subst this
    exact ⟨rfl, rfl, Or.inl ⟨9000, rfl⟩, Or.inr rfl⟩
  obtain ⟨records, _, hdel, _, _, _, hlen⟩ := deleteTask_present twoTasks "t1" sampleTask hkeys
    hget hser
  exact ⟨hkeys, hget, hser, by rw [hdel], hlen⟩

/-! ## Every task is stored under its own id -/

namespace JSMap

variable {α : Type}

theorem keys_setEntries (k : String) (v : α) (l : List (String × α)) :
    (setEntries k v l).map (fun e => e.1) =
      if k ∈ l.map (fun e => e.1) then l.map (fun e => e.1) else l.map (fun e => e.1) ++ [k] := by
  induction l with
  | nil => simp [setEntries]
  | cons e rest ih =>
    unfold setEntries
    by_cases he : e.1 = k
    · simp [he]
    · have hne : ¬ k = e.1 := fun h => he h.symm
      rw [if_neg he]
      simp only [List.map_cons, List.mem_cons, hne, false_or, ih]
      split <;> rfl

theorem distinctKeys_set (m : JSMap α) (k : String) (v : α) (h : m.distinctKeys) :
    (m.set k v).distinctKeys := by
  unfold distinctKeys at h ⊢
  simp only [set, keys_setEntries]
  split
  · exact h
  · rename_i hk
    rw [List.nodup_append]
    refine ⟨h, List.nodup_singleton _, ?_⟩
    intro a ha hb
    rw [List.mem_singleton] at hb
    exact hk (hb ▸ ha)

theorem keys_mutateEntries (k : String) (f : α → α) (l : List (String × α)) :
    (mutateEntries k f l).map (fun e => e.1) = l.map (fun e => e.1) := by
  induction l with
  | nil => rfl
  | cons e rest ih =>
    unfold mutateEntries
    split
    · rfl
    · simp only [List.map_cons, ih]

theorem distinctKeys_mutate (m : JSMap α) (k : String) (f : α → α) (h : m.distinctKeys) :
    (m.mutate k f).distinctKeys := by
  unfold distinctKeys at h ⊢
  simpa only [mutate, keys_mutateEntries] using h

theorem distinctKeys_delete (m : JSMap α) (k : String) (h : m.distinctKeys) :
    (m.delete k).2.distinctKeys := by
  unfold distinctKeys at h ⊢
  exact h.sublist ((List.filter_sublist _).map _)

end JSMap

/-- The entries of a collection hold each task under its own id. -/
theorem keyed_set (m : JSMap Task) (k : String) (t : Task) (hid : t.id = k)
    (h : ∀ e ∈ m.entries, e.2.id = e.1) : ∀ e ∈ (m.set k t).entries, e.2.id = e.1 := by
  intro e he
  rcases JSMap.mem_setEntries he with rfl | he
  · exact hid
  · exact h e he

theorem keyed_mutate (m : JSMap Task) (k : String) (f : Task → Task)
    (hf : ∀ t, (f t).id = t.id) (h : ∀ e ∈ m.entries, e.2.id = e.1) :
    ∀ e ∈ (m.mutate k f).entries, e.2.id = e.1 := by
  intro e he
  rcases JSMap.mem_mutateEntries he with he | ⟨a, ha, rfl⟩
  · exact h e he
  · exact (hf a.2).trans (h a ha)

theorem keyed_delete (m : JSMap Task) (k : String) (h : ∀ e ∈ m.entries, e.2.id = e.1) :
    ∀ e ∈ (m.delete k).2.entries, e.2.id = e.1 := by
  intro e he
  exact h e (List.mem_filter.1 he).1

theorem keyed_insertMissing (clock : Nat → Int) (records : List TaskData) (i : Nat)
    (tasks : JSMap Task) (h : (∀ e ∈ tasks.entries, e.2.id = e.1) ∧ tasks.distinctKeys) :
    (∀ e ∈ (TaskManager.insertMissing clock i records tasks).entries, e.2.id = e.1) ∧
      (TaskManager.insertMissing clock i records tasks).distinctKeys := by
  induction records generalizing i tasks with
  | nil => exact h
  | cons data rest ih =>
    rw [insertMissing_cons]
    apply ih
    split
    · exact ⟨keyed_set _ _ _ rfl h.1, JSMap.distinctKeys_set _ _ _ h.2⟩
    · exact h

theorem applyUpdates_id (updates : List (String × Val)) (t : Task) :
    (applyUpdates updates t).id = t.id :=
  (foldl_applyKey_id_createdAt updates _ t).1

/-- In every reachable state, whatever update records are admitted, each entry
holds a task whose `id` is the key, and the keys are pairwise different. -/
theorem reachable_keyed (allowed : List (String × Val) → Prop) (tm : TaskManager)
    (h : TaskReachable allowed tm) :
    (∀ e ∈ tm.tasks.entries, e.2.id = e.1) ∧ tm.tasks.distinctKeys := by
  induction h with
  | init ls => exact ⟨by simp [JSMap.empty], by simp [JSMap.distinctKeys, JSMap.empty]⟩
  | createTask id now title description createdBy assignedTo deadline _ ih =>
    rw [createTask_tasks]
    exact ⟨keyed_set _ _ _ rfl ih.1, JSMap.distinctKeys_set _ _ _ ih.2⟩
  | updateTask id updates _ _ ih =>
    rw [updateTask_tasks_eq]
    exact ⟨keyed_mutate _ _ _ (applyUpdates_id updates) ih.1,
      JSMap.distinctKeys_mutate _ _ _ ih.2⟩
  | deleteTask id _ ih =>
    rcases deleteTask_tasks _ id with h | h
    · rw [h]
      exact ⟨keyed_delete _ _ ih.1, JSMap.distinctKeys_delete _ _ ih.2⟩
    · rw [h]
      exact ih
  | complete id now _ ih =>
    exact ⟨keyed_mutate _ _ _ (fun _ => rfl) ih.1, JSMap.distinctKeys_mutate _ _ _ ih.2⟩
  | uncomplete id _ ih =>
    exact ⟨keyed_mutate _ _ _ (fun _ => rfl) ih.1, JSMap.distinctKeys_mutate _ _ _ ih.2⟩
  | bootstrap clock _ ih =>
    rw [loadInitialTasksFromAPI_tasks]
    exact keyed_insertMissing _ _ _ _ ih

theorem getTask_id_of_keyed (tm : TaskManager) (h : ∀ e ∈ tm.tasks.entries, e.2.id = e.1)
    (k : String) (t : Task) (hget : tm.getTask k = some t) : t.id = k := by
  simp only [TaskManager.getTask, JSMap.get, Option.map_eq_some'] at hget
  obtain ⟨e, he, rfl⟩ := hget
  have hk : e.1 = k := by simpa using List.find?_some he
  exact (h e (List.mem_of_find?_eq_some he)).trans hk

theorem ids_eq_keys (tm : TaskManager) (h : ∀ e ∈ tm.tasks.entries, e.2.id = e.1) :
    tm.getAllTasks.map Task.id = tm.tasks.entries.map (fun e => e.1) := by
  simp only [TaskManager.getAllTasks, JSMap.values, List.map_map]
  exact List.map_congr_left (fun e he => h e he)

/-- C22. In every state reachable from the empty collection by `createTask`,
`updateTask` with any update record, `deleteTask` and the bootstrap insertion
(and by the methods `complete` and `uncomplete`), a task that `getTask(k)` returns
has `id` equal to `k`, and no two tasks of `getAllTasks` have the same id. -/
theorem reachable_stored_under_id (tm : TaskManager) (h : TaskReachable (fun _ => True) tm) :
    (∀ k t, tm.getTask k = some t → t.id = k) ∧
    tm.getAllTasks.Pairwise (fun t1 t2 => t1.id ≠ t2.id) := by
  obtain ⟨hkeyed, hdistinct⟩ := reachable_keyed _ tm h
  refine ⟨getTask_id_of_keyed tm hkeyed, ?_⟩
  have hnodup : (tm.getAllTasks.map Task.id).Nodup := by
    rw [ids_eq_keys tm hkeyed]
    exact hdistinct
  rw [List.Nodup, List.pairwise_map] at hnodup
  exact hnodup

theorem renamedSample_reachable : TaskReachable (fun _ => True) renamedSample :=
  TaskReachable.bootstrap _
    (TaskReachable.updateTask _ _ trivial
      (TaskReachable.createTask _ _ _ _ _ _ _ (TaskReachable.init LocalStorage.empty)))

/-- Witness of C22: after an update record that supplies the id `"api-1"` and the
bootstrap insertion, the task under `"t1"` still has the id `"t1"`. -/
theorem reachable_stored_under_id_witness :
    TaskReachable (fun _ => True) renamedSample ∧
    renamedSample.getTask "t1" = some { sampleTask with title := Val.str "otro" } ∧
    ({ sampleTask with title := Val.str "otro" } : Task).id = "t1" ∧
    renamedSample.getAllTasks.Pairwise (fun t1 t2 => t1.id ≠ t2.id) :=
  ⟨renamedSample_reachable, by decide,
    (reachable_stored_under_id renamedSample renamedSample_reachable).1 "t1" _ (by decide),
    (reachable_stored_under_id renamedSample renamedSample_reachable).2⟩

/-! ## Memory and storage stay in step -/

theorem lookup_mem (updates : List (String × Val)) (key : String)
    (h : key ∈ updates.map (fun e => e.1)) :
    ∃ v, updates.lookup key = some v ∧ (key, v) ∈ updates := by
  induction updates with
  | nil => simp at h
  | cons e rest ih =>
    obtain ⟨k, v⟩ := e
    by_cases hk : key = k
    · subst hk
      exact ⟨v, by simp [List.lookup], List.mem_cons_self _ _⟩
    · have hmem : key ∈ rest.map (fun e => e.1) := by
        simpa [hk] using h
      obtain ⟨w, hw, hin⟩ := ih hmem
      have hb : (key == k) = false := by simpa using hk
      exact ⟨w, by simp only [List.lookup, hb, hw], List.mem_cons_of_mem _ hin⟩

theorem readKey_storable (updates : List (String × Val)) (hu : storableUpdate updates)
    (key : String) (h : key ∈ updates.map (fun e => e.1)) :
    storableField key (readKey updates key) := by
  obtain ⟨v, hv, hin⟩ := lookup_mem updates key h
  simp only [readKey, hv, Option.getD_some]
  exact hu (key, v) hin

theorem assign_storable (t : Task) (key : String) (v : Val) (ht : t.storable)
    (hprop : t.hasProperty key = true) (hv : storableField key v) :
    (t.assign key v).storable := by
  obtain ⟨hp, hs, h1, h2, h3, h4, h5, h6, h7⟩ := ht
  by_cases k1 : key = "title"
  · subst k1
    have hv' : v.viaJSON = v := by simpa [storableField] using hv
    have e : t.assign "title" v = { t with title := v } := by simp [Task.assign]
    rw [e]
    exact ⟨hp, hs, hv', h2, h3, h4, h5, h6, h7⟩
  by_cases k2 : key = "description"
  · subst k2
    have hv' : v.viaJSON = v := by simpa [storableField] using hv
    have e : t.assign "description" v = { t with description := v } := by simp [Task.assign]
    rw [e]
    exact ⟨hp, hs, h1, hv', h3, h4, h5, h6, h7⟩
  by_cases k3 : key = "createdBy"
  · subst k3
    have hv' : v.viaJSON = v := by simpa [storableField] using hv
    have e : t.assign "createdBy" v = { t with createdBy := v } := by simp [Task.assign]
    rw [e]
    exact ⟨hp, hs, h1, h2, hv', h4, h5, h6, h7⟩
  by_cases k4 : key = "assignedTo"
  · subst k4
    have hv' : v.viaJSON = v := by simpa [storableField] using hv
    have e : t.assign "assignedTo" v = { t with assignedTo := v } := by simp [Task.assign]
    rw [e]
    exact ⟨hp, hs, h1, h2, h3, hv', h5, h6, h7⟩
  by_cases k5 : key = "completed"
  · subst k5
    have hv' : v.viaJSON = v := by simpa [storableField] using hv
    have e : t.assign "completed" v = { t with completed := v } := by simp [Task.assign]
    rw [e]
    exact ⟨hp, hs, h1, h2, h3, h4, hv', h6, h7⟩
  by_cases k6 : key = "deadline"
  · subst k6
    have hv' : v = Val.null ∨ ∃ ms, v = Val.date ms := by simpa [storableField] using hv
    have e : t.assign "deadline" v = { t with deadline := v } := by simp [Task.assign]
    rw [e]
    exact ⟨hp, hs, h1, h2, h3, h4, h5, hv', h7⟩
  by_cases k7 : key = "completedAt"
  · subst k7
    have hv' : v = Val.null ∨ ∃ ms, v = Val.date ms := by simpa [storableField] using hv
    have e : t.assign "completedAt" v = { t with completedAt := v } := by simp [Task.assign]
    rw [e]
    exact ⟨hp, hs, h1, h2, h3, h4, h5, h6, hv'⟩
  by_cases k8 : key = "id" ∨ key = "createdAt"
  · have e : t.assign key v = t := by simp [Task.assign, k1, k2, k3, k4, k5, k6, k7, k8]
    rw [e]
    exact ⟨hp, hs, h1, h2, h3, h4, h5, h6, h7⟩
  · exfalso
    have hinh : (taskPrototypeKeys ++ objectPrototypeKeys).contains key = false := by
      simpa [storableField, k1, k2, k3, k4, k5, k6, k7, k8] using hv
    have hdata : taskDataFields.contains key = false := by
      simp only [not_or] at k8
      simp [taskDataFields, k1, k2, k3, k4, k5, k6, k7, k8.1, k8.2]
    simp only [Task.hasProperty, hdata, hs, hp, Proto.keys, hinh, List.lookup] at hprop
    simp at hprop

theorem applyKey_storable (updates : List (String × Val)) (t : Task) (key : String)
    (ht : t.storable) (hv : storableField key (readKey updates key)) :
    (applyKey updates t key).storable := by
  unfold applyKey
  split
  · rename_i hcond
    simp only [Bool.and_eq_true] at hcond
    exact assign_storable t key _ ht hcond.1.1 hv
  · exact ht

theorem foldl_applyKey_storable (updates : List (String × Val)) (keys : List String)
    (t : Task) (ht : t.storable)
    (hv : ∀ key ∈ keys, storableField key (readKey updates key)) :
    (keys.foldl (applyKey updates) t).storable := by
  induction keys generalizing t with
  | nil => exact ht
  | cons k rest ih =>
    rw [List.foldl_cons]
    exact ih _ (applyKey_storable updates t k ht (hv k (List.mem_cons_self _ _)))
      (fun key hkey => hv key (List.mem_cons_of_mem _ hkey))

theorem applyUpdates_storable (updates : List (String × Val)) (hu : storableUpdate updates)
    (t : Task) (ht : t.storable) : (applyUpdates updates t).storable :=
  foldl_applyKey_storable updates _ t ht (fun key hkey => readKey_storable updates hu key hkey)

theorem serialisable_of_storable (t : Task) (h : t.storable) : t.serialisable := by
  obtain ⟨hp, hs, _, _, _, _, _, h6, h7⟩ := h
  refine ⟨hp, by rw [hs]; rfl, ?_, ?_⟩
  · rcases h6 with h | h
    · exact Or.inr (by rw [h]; rfl)
    · exact Or.inl h
  · rcases h7 with h | h
    · exact Or.inr (by rw [h]; rfl)
    · exact Or.inl h

/-- The record that `toJSON` returns for a storable task, sent through JSON and
`Task.fromJSON`, is the task again. -/
theorem callToJSON_fromJSON (t : Task) (h : t.storable) (data : TaskData)
    (hdata : t.callToJSON = .ok data) (now : Int) : Task.fromJSON now data.viaJSON = t := by
  obtain ⟨hp, hs, h1, h2, h3, h4, h5, h6, h7⟩ := h
  obtain ⟨d, hd1, hd2⟩ := isoOrNull_dateOrNull t.deadline h6
  obtain ⟨c, hc1, hc2⟩ := isoOrNull_dateOrNull t.completedAt h7
  have hd3 := defaultNull_dateOrNull d
  rw [hd2] at hd3
  have heq : data = { id := t.id, title := t.title, description := t.description,
                      createdBy := t.createdBy, assignedTo := t.assignedTo, deadline := d,
                      createdAt := t.createdAt, completed := t.completed,
                      completedAt := c } := by
    simp only [Task.callToJSON, hp, hs, Task.toJSON, hd1, hc1] at hdata
    exact (Except.ok.inj hdata).symm
  subst heq
  cases t
  simp only at hp hs h1 h2 h3 h4 h5 hd2 hc2 hd3
  simp only [Task.fromJSON, Task.new, TaskData.viaJSON, h1, h2, h3, h4, h5, hd2, hd3, hc2, hp,
    hs]

theorem forall₂_of_mapM (tasks : List Task) (records : List TaskData)
    (h : tasks.mapM Task.callToJSON = .ok records) :
    List.Forall₂ (fun t data => t.callToJSON = .ok data) tasks records := by
  induction tasks generalizing records with
  | nil =>
    have : records = [] := by
      have h' : (Except.ok [] : Except JSError (List TaskData)) = .ok records := h
      exact (Except.ok.inj h').symm
    subst this
    exact List.Forall₂.nil
  | cons t rest ih =>
    rw [List.mapM_cons] at h
    cases ht : t.callToJSON with
    | error e =>
      rw [ht] at h
      cases h
    | ok d =>
      cases hr : rest.mapM Task.callToJSON with
      | error e =>
        rw [ht, hr] at h
        cases h
      | ok ds =>
        rw [ht, hr] at h
        have : records = d :: ds := by
          have h' : (Except.ok (d :: ds) : Except JSError (List TaskData)) = .ok records := h
          exact (Except.ok.inj h').symm
        subst this
        exact List.Forall₂.cons ht (ih ds hr)

/-- Loading the records of a list of entries appends these entries, in order. -/
theorem loadRecords_append (clock : Nat → Int) (l : List (String × Task))
    (records : List TaskData)
    (hrec : List.Forall₂ (fun e data => ∀ now, Task.fromJSON now data.viaJSON = e.2) l records)
    (hid : ∀ e ∈ l, e.2.id = e.1) (pre : List (String × Task)) (i : Nat)
    (hnodup : ((pre ++ l).map (fun e => e.1)).Nodup) :
    TaskManager.loadRecords clock i records ⟨pre⟩ = ⟨pre ++ l⟩ := by
  induction hrec generalizing pre i with
  | nil => simp [TaskManager.loadRecords]
  | @cons e data l records he _ ih =>
    unfold TaskManager.loadRecords
    simp only [he]
    have hkey : e.2.id = e.1 := hid e (List.mem_cons_self _ _)
    have habs : ∀ a ∈ pre, a.1 ≠ e.1 := by
      intro a ha hk
      rw [List.map_append, List.nodup_append] at hnodup
      exact hnodup.2.2 (List.mem_map.2 ⟨a, ha, rfl⟩)
        (by rw [hk]; exact List.mem_map.2 ⟨e, List.mem_cons_self _ _, rfl⟩)
    have hset : (JSMap.mk pre).set e.2.id e.2 = ⟨pre ++ [e]⟩ := by
      simp only [JSMap.set, hkey]
      rw [JSMap.setEntries_of_absent _ _ _ habs]
    rw [hset, ih (fun a ha => hid a (List.mem_cons_of_mem _ ha)) (pre ++ [e]) (i + 1)
      (by simpa using hnodup)]
    simp

theorem persistReachable_reachable (tm : TaskManager) (h : PersistReachable tm) :
    TaskReachable (fun _ => True) tm := by
  induction h with
  | init => exact TaskReachable.init _
  | createTask id now title description createdBy assignedTo deadline _ _ _ _ _ _ ih =>
    exact TaskReachable.createTask _ _ _ _ _ _ _ ih
  | updateTask id updates _ _ ih => exact TaskReachable.updateTask _ _ trivial ih
  | deleteTask id _ ih => exact TaskReachable.deleteTask _ ih

theorem persistReachable_storable (tm : TaskManager) (h : PersistReachable tm) :
    ∀ t ∈ tm.tasks.values, t.storable := by
  induction h with
  | init => simp [JSMap.values, JSMap.empty]
  | createTask id now title description createdBy assignedTo deadline h1 h2 h3 h4 h5 _ ih =>
    intro t ht
    rw [createTask_tasks] at ht
    rcases JSMap.mem_values_set ht with rfl | ht
    · refine ⟨rfl, rfl, h1, h2, h3, h4, rfl, ?_, Or.inl rfl⟩
      rcases h5 with rfl | rfl | ⟨ms, rfl⟩
      · exact Or.inl rfl
      · exact Or.inl rfl
      · exact Or.inr ⟨ms, rfl⟩
    · exact ih t ht
  | updateTask id updates hu _ ih =>
    intro t ht
    rw [updateTask_tasks_eq] at ht
    rcases JSMap.mem_values_mutate ht with ht | ⟨t0, h0, rfl⟩
    · exact ih t ht
    · exact applyUpdates_storable updates hu t0 (ih t0 h0)
  | deleteTask id _ ih =>
    intro t ht
    rcases deleteTask_tasks _ id with h | h
    · rw [h] at ht
      exact ih t (JSMap.mem_values_delete ht)
    · rw [h] at ht
      exact ih t ht

theorem saveThen_storable {ρ : Type} (tm : TaskManager) (result : ρ)
    (hst : ∀ t ∈ tm.tasks.values, t.storable) :
    ∃ records, tm.tasks.values.mapM Task.callToJSON = .ok records ∧
      tm.saveThen result =
        ({ tasks := tm.tasks, storage := tm.storage.setTasks records }, .ok result) := by
  obtain ⟨records, hrec, _⟩ :=
    mapM_callToJSON tm.tasks.values (fun t ht => serialisable_of_storable t (hst t ht))
  exact ⟨records, hrec, saveThen_of_mapM tm result records hrec⟩

/-- In a state reached with storable values either nothing was written, the key
`tasks` is not set and the collection is empty, or the key holds the
serialisation of the collection. -/
theorem persistReachable_inStep (tm : TaskManager) (h : PersistReachable tm) :
    (tm.storage.writes = 0 ∧ tm.storage.tasks = none ∧ tm.tasks.entries = []) ∨
    (0 < tm.storage.writes ∧ ∃ records,
      tm.tasks.values.mapM Task.callToJSON = .ok records ∧ tm.storage.tasks = some records) := by
  have saved : ∀ {ρ : Type} (tm1 : TaskManager) (result : ρ),
      (∀ t ∈ tm1.tasks.values, t.storable) →
      0 < (tm1.saveThen result).1.storage.writes ∧ ∃ records,
        (tm1.saveThen result).1.tasks.values.mapM Task.callToJSON = .ok records ∧
        (tm1.saveThen result).1.storage.tasks = some records := by
    intro ρ tm1 result hst
    obtain ⟨records, hrec, hsave⟩ := saveThen_storable tm1 result hst
    rw [hsave]
    exact ⟨Nat.succ_pos _, records, hrec, rfl⟩
  induction h with
  | init => exact Or.inl ⟨rfl, rfl, rfl⟩
  | createTask id now title description createdBy assignedTo deadline h1 h2 h3 h4 h5 hprev _ =>
    have hst := persistReachable_storable _
      (PersistReachable.createTask id now title description createdBy assignedTo deadline
        h1 h2 h3 h4 h5 hprev)
    rw [createTask_tasks] at hst
    exact Or.inr (saved _ _ hst)
  | updateTask id updates hu hprev ih =>
    rename_i tm0
    cases hget : tm0.getTask id with
    | none =>
      have : tm0.updateTask id updates = (tm0, .ok none) := by
        unfold TaskManager.updateTask
        rw [hget]
      rw [this]
      exact ih
    | some task =>
      have hst := persistReachable_storable _ (PersistReachable.updateTask id updates hu hprev)
      rw [updateTask_tasks_eq] at hst
      have : tm0.updateTask id updates =
          TaskManager.saveThen { tm0 with tasks := tm0.tasks.mutate id (applyUpdates updates) }
            (some (applyUpdates updates task)) := by
        unfold TaskManager.updateTask
        rw [hget]
      rw [this]
      exact Or.inr (saved _ _ hst)
  | deleteTask id hprev ih =>
    rename_i tm0
    cases hhas : tm0.tasks.has id with
    | false =>
      have : tm0.deleteTask id = (tm0, .ok false) := by
        unfold TaskManager.deleteTask
        simp [JSMap.delete, hhas]
      rw [this]
      exact ih
    | true =>
      have hst : ∀ t ∈ (tm0.tasks.delete id).2.values, t.storable :=
        fun t ht => persistReachable_storable _ hprev t (JSMap.mem_values_delete ht)
      have : tm0.deleteTask id =
          TaskManager.saveThen { tm0 with tasks := (tm0.tasks.delete id).2 } true := by
        unfold TaskManager.deleteTask
        simp [JSMap.delete, hhas]
      rw [this]
      exact Or.inr (saved _ _ hst)

theorem forall₂_roundtrip (l : List (String × Task)) (records : List TaskData)
    (hst : ∀ e ∈ l, e.2.storable)
    (h : List.Forall₂ (fun (e : String × Task) data => e.2.callToJSON = .ok data) l records) :
    List.Forall₂ (fun (e : String × Task) data =>
      ∀ now, Task.fromJSON now data.viaJSON = e.2) l records := by
  induction h with
  | nil => exact List.Forall₂.nil
  | @cons e data l records he _ ih =>
    exact List.Forall₂.cons
      (fun now => callToJSON_fromJSON e.2 (hst e (List.mem_cons_self _ _)) data he now)
      (ih (fun a ha => hst a (List.mem_cons_of_mem _ ha)))

/-- The part of the reachable states on which storage follows memory: in every
state of `PersistReachable` (calls with values as the data model types them and
update records that name no inherited member), a fresh `TaskManager` built over
the `localStorage` of that state loads exactly the in-memory collection: the
same ids, the same tasks, in the same order. As long as nothing was written, the
key `tasks` is not set and the collection is empty. Outside `PersistReachable`
this fails, as it does on `staleSample`. -/
theorem storage_in_step (tm : TaskManager) (h : PersistReachable tm) (clock : Nat → Int) :
    (TaskManager.new tm.storage clock).tasks = tm.tasks ∧
    (TaskManager.new tm.storage clock).getAllTasks = tm.getAllTasks ∧
    (tm.storage.writes = 0 → tm.storage.tasks = none ∧ tm.getAllTasks = []) := by
  have hload : (TaskManager.new tm.storage clock).tasks = tm.tasks := by
    obtain ⟨hkeyed, hdistinct⟩ := reachable_keyed _ tm (persistReachable_reachable tm h)
    have hst := persistReachable_storable tm h
    rcases persistReachable_inStep tm h with ⟨_, hnone, hempty⟩ | ⟨_, records, hrec, hsome⟩
    · simp only [TaskManager.new, TaskManager.loadFromStorage, hnone]
      cases htm : tm.tasks with
      | mk entries =>
        rw [htm] at hempty
        simp only at hempty
        rw [hempty]
        rfl
    · simp only [TaskManager.new, TaskManager.loadFromStorage, hsome]
      have hforall : List.Forall₂ (fun (e : String × Task) data =>
          ∀ now, Task.fromJSON now data.viaJSON = e.2) tm.tasks.entries records := by
        have h2 := forall₂_of_mapM _ _ hrec
        simp only [JSMap.values, List.forall₂_map_left_iff] at h2
        exact forall₂_roundtrip _ _ (fun e he => hst e.2 (List.mem_map.2 ⟨e, he, rfl⟩)) h2
      have hl := loadRecords_append clock tm.tasks.entries records hforall hkeyed [] 0
        (by simpa using hdistinct)
      rw [show (JSMap.empty : JSMap Task) = ⟨[]⟩ from rfl, hl]
      rfl
  refine ⟨hload, by rw [TaskManager.getAllTasks, hload]; rfl, ?_⟩
  intro hw
  rcases persistReachable_inStep tm h with ⟨_, hnone, hempty⟩ | ⟨hpos, _⟩
  · exact ⟨hnone, by simp [TaskManager.getAllTasks, JSMap.values, hempty]⟩
  · omega

theorem persistedSample_reachable : PersistReachable persistedSample := by
  have hcomplete : storableUpdate [("completed", Val.bool true), ("completedAt", Val.date 6000)] := by
    intro e he
    simp only [List.mem_cons, List.mem_singleton, List.not_mem_nil, or_false] at he
    rcases he with rfl | rfl
    · simp [storableField, Val.viaJSON]
    · simp [storableField]
  have hedit : storableUpdate
      [("title", Val.str "Regar las plantas"), ("description", Val.str "todas")] := by
    intro e he
    simp only [List.mem_cons, List.mem_singleton, List.not_mem_nil, or_false] at he
    rcases he with rfl | rfl
    · simp [storableField, Val.viaJSON]
    · simp [storableField, Val.viaJSON]
  exact PersistReachable.deleteTask _
    (PersistReachable.updateTask _ _ hedit
      (PersistReachable.updateTask _ _ hcomplete
        (PersistReachable.createTask _ _ _ _ _ _ _ rfl rfl rfl rfl (Or.inr (Or.inl rfl))
          (PersistReachable.createTask _ _ _ _ _ _ _ rfl rfl rfl rfl
            (Or.inr (Or.inr ⟨9000, rfl⟩))
            (PersistReachable.createTask _ _ _ _ _ _ _ rfl rfl rfl rfl (Or.inr (Or.inl rfl))
              PersistReachable.init)))))

/-- An instance of `storage_in_step`: after three `createTask`, a completion, an
edit and a `deleteTask`, a fresh manager loads the two remaining tasks as they
are in memory. -/
theorem storage_in_step_witness :
    PersistReachable persistedSample ∧
    persistedSample.getAllTasks.length = 2 ∧
    (TaskManager.new persistedSample.storage (fun _ => 0)).tasks = persistedSample.tasks :=
  ⟨persistedSample_reachable, by decide,
    (storage_in_step persistedSample persistedSample_reachable (fun _ => 0)).1⟩

/-! ## Calls after an update record that names `toJSON` -/

/-- The guard of `updateTask` skips a key that neither the task nor its
prototype chain has: after `updateTask("t1", {foo: "x"})` the task is as it was,
and it is returned. -/
theorem updateTask_unknown_key :
    (sampleTasks.updateTask "t1" [("foo", Val.str "x")]).1.getTask "t1" = some sampleTask ∧
    (sampleTasks.updateTask "t1" [("foo", Val.str "x")]).2 = .ok (some sampleTask) :=
  ⟨by decide, rfl⟩

/-- C18 (evaluation at the failing input). On the collection that holds the
tasks `"t1"` and `"t2"`, after `updateTask("t2", {toJSON: "x"})`: the id `"t1"`
is present, and `deleteTask("t1")` does not return `true` but throws
`TypeError`; the task `"t1"` is gone from the Map, one task remains, and
`localStorage` is the one the second `createTask` left, whose `tasks` record
still has the records of both tasks, `"t1"` first. -/
theorem deleteTask_after_inherited_key :
    shadowedTwoTasks.getTask "t1" = some sampleTask ∧
    (shadowedTwoTasks.deleteTask "t1").2 = .error JSError.typeError ∧
    (shadowedTwoTasks.deleteTask "t1").1.getTask "t1" = none ∧
    (shadowedTwoTasks.deleteTask "t1").1.getAllTasks.length = 1 ∧
    (shadowedTwoTasks.deleteTask "t1").1.storage = twoTasks.storage ∧
    (shadowedTwoTasks.deleteTask "t1").1.storage.tasks.map (List.map TaskData.id) =
      some ["t1", "t2"] :=
  ⟨by decide, rfl, by decide, by decide, by decide, by decide⟩

/-- C21 (evaluation at the failing input). From the empty collection and an
empty `localStorage`, `createTask` of the task `"t1"` followed by
`updateTask("t1", {title: "z", toJSON: "x"})`: the call throws `TypeError` after
both properties were assigned, so the task in memory has the title `"z"`, while
`localStorage` is the one `createTask` left; a fresh manager over it loads the
task with the title `"Comprar pan"`, and its collection is not the one in
memory. -/
theorem storage_out_of_step :
    (sampleTasks.updateTask "t1" [("title", Val.str "z"), ("toJSON", Val.str "x")]).2 =
      .error JSError.typeError ∧
    staleSample.getTask "t1" =
      some { sampleTask with title := Val.str "z", shadow := [("toJSON", Val.str "x")] } ∧
    staleSample.storage = sampleTasks.storage ∧
    (TaskManager.new staleSample.storage (fun _ => 0)).getTask "t1" = some sampleTask ∧
    sampleTask.title = Val.str "Comprar pan" ∧
    (TaskManager.new staleSample.storage (fun _ => 0)).tasks ≠ staleSample.tasks :=
  ⟨rfl, by decide, by decide, by decide, rfl, by decide⟩

end Mod5
